import Mathlib

/-!
# Verification of the multi-agent trip planner core

Shallow embedding of `src/app/core/agents/trip_planner_agent.py` and
`src/app/services/unsplash_service.py` (qiqiBaoqwq/travel-agent), together
with proofs settling the specification claims about it.

Conventions of the embedding:
* Python strings are modelled as `List Char` (with `String` wrappers at the
  API boundary where convenient).
* Python `dict` objects are modelled as association lists whose keys are
  unique; `dict.__setitem__` replaces a present key in place and otherwise
  appends at the end, mirroring CPython insertion order.
* Fallible Python code (statements that can raise) is modelled in
  `Except String`; the error strings themselves are not meaningful, only
  which inputs error.
* Calendar dates (`datetime.strptime("%Y-%m-%d")` / `timedelta(days=i)` /
  `strftime`) are modelled as day ordinals (days since 1970-01-01):
  `timedelta(days=i)` is ordinal `+ i` and `strftime` is Gregorian
  formatting of the ordinal via `civilFromDays`.
-/

namespace TravelAgent

/-! ## Python string primitives -/

/-- The characters of Python's `str.strip()` / `\s` default whitespace set
(ASCII fragment, which covers all inputs considered here). -/
def pyWs (c : Char) : Bool :=
  c = ' ' || c = '\t' || c = '\n' || c = '\r' || c = '\x0b' || c = '\x0c'

/-- Python `str.strip()` (no argument): drop whitespace at both ends. -/
def pyStrip (s : List Char) : List Char :=
  ((s.dropWhile pyWs).reverse.dropWhile pyWs).reverse

/-- Python `str.rstrip(chars)`: drop characters of `p` at the right end. -/
def pyRstrip (s : List Char) (p : Char → Bool) : List Char :=
  (s.reverse.dropWhile p).reverse

/-- `re.sub(r'\.{3,}$', '', s)`: remove a trailing run of three or more
dots (the regex is greedy, so the whole trailing run goes). -/
def stripTrailingDots (s : List Char) : List Char :=
  let r := s.reverse
  if 3 ≤ (r.takeWhile (· = '.')).length then (r.dropWhile (· = '.')).reverse else s

/-- `str.count(c)` for a single character. -/
def countChar (c : Char) (s : List Char) : Nat :=
  s.count c

/-! ## Python dicts as association lists -/

/-- `d[k] = v` on a Python dict: replace in place if the key is present,
otherwise append at the end. -/
def pySet {β : Type} (d : List (String × β)) (k : String) (v : β) : List (String × β) :=
  if d.any (fun kv => kv.1 = k) then
    d.map (fun kv => if kv.1 = k then (k, v) else kv)
  else d ++ [(k, v)]

/-- `k in d` on a Python dict. -/
def pyHasKey {β : Type} (d : List (String × β)) (k : String) : Bool :=
  d.any (fun kv => kv.1 = k)

/-- `d.get(k)` on a Python dict (first, i.e. unique, binding). -/
def pyGet {β : Type} (d : List (String × β)) (k : String) : Option β :=
  (d.find? (fun kv => kv.1 = k)).map (·.2)

/-- `d.update(r)`: set every binding of `r` into `d`, left to right. -/
def pyUpdate {β : Type} (d r : List (String × β)) : List (String × β) :=
  r.foldl (fun acc kv => pySet acc kv.1 kv.2) d

/-- `merge_dicts` (trip_planner_agent.py lines 22-26): copy the left dict
and update it with the right one. -/
def merge_dicts (left right : List (String × String)) : List (String × String) :=
  pyUpdate left right

/-! ## Workflow state and the LangGraph reducer merge

`TripPlannerState` (trip_planner_agent.py lines 28-40).  `messages` uses the
`add_messages` reducer (modelled as append — id bookkeeping is irrelevant
here), `agent_results` the `merge_dicts` reducer, `completed_tasks` the
`operator.add` reducer; the remaining channels are last-value-wins. -/

structure TripPlannerState where
  messages : List String
  request : List (String × String)
  task_plan : String
  agent_results : List (String × String)
  completed_tasks : List String
  final_plan : String
  current_step : String
deriving DecidableEq

/-- A partial state as returned by a node: only the channels the node
produced. -/
structure PartialState where
  messages : Option (List String) := none
  task_plan : Option String := none
  agent_results : Option (List (String × String)) := none
  completed_tasks : Option (List String) := none
  final_plan : Option String := none
  current_step : Option String := none

/-- The LangGraph merge of a node's partial result into the running state:
each channel present in the update is combined with the current value by the
channel's declared reducer, the rest are untouched. -/
def applyUpdate (s : TripPlannerState) (p : PartialState) : TripPlannerState :=
  { messages := match p.messages with
      | some ms => s.messages ++ ms
      | none => s.messages
    request := s.request
    task_plan := p.task_plan.getD s.task_plan
    agent_results := match p.agent_results with
      | some r => merge_dicts s.agent_results r
      | none => s.agent_results
    completed_tasks := match p.completed_tasks with
      | some ts => s.completed_tasks ++ ts
      | none => s.completed_tasks
    final_plan := p.final_plan.getD s.final_plan
    current_step := p.current_step.getD s.current_step }

/-- `_scheduler_plan_node` (lines 410-443): the LLM call is abstracted by
its response text `llmResponse`; the node returns the partial state
`{messages, task_plan, current_step, completed_tasks: [], agent_results: {}}`. -/
def scheduler_plan_node (llmResponse : String) (promptMessages : List String) :
    PartialState :=
  { messages := some (promptMessages ++ [llmResponse])
    task_plan := some llmResponse
    current_step := some "planning"
    completed_tasks := some []
    agent_results := some [] }

/-! ## JSON extraction (`_extract_json`, lines 655-682) -/

/-- Python `str.find(sub, start)`: index of the first occurrence of `sub`
at or after `start`, or `none` (Python's `-1`). -/
def pyFind (s sub : List Char) (start : Nat) : Option Nat :=
  ((List.range (s.length + 1)).filter
    (fun i => decide (start ≤ i) && sub.isPrefixOf (s.drop i))).head?

/-- Python `str.rfind(sub)`: index of the last occurrence of `sub`. -/
def pyRfind (s sub : List Char) : Option Nat :=
  ((List.range (s.length + 1)).filter (fun i => sub.isPrefixOf (s.drop i))).getLast?

/-- Python slice `s[a:b]`. -/
def pySlice (s : List Char) (a b : Nat) : List Char :=
  (s.drop a).take (b - a)

/-- `_extract_json`: try a ```json fenced block, then any fenced block
(skipping a short leading language-tag line), then the span from the first
`{` to the last `}`; empty string when nothing matches. -/
def extract_json (response : List Char) : List Char :=
  let fence := "```".data
  -- method 1: ```json fenced block
  let m1 : Option (List Char) :=
    match pyFind response "```json".data 0 with
    | some f =>
      let jsonStart := f + 7
      match pyFind response fence jsonStart with
      | some jsonEnd =>
        if jsonStart < jsonEnd then some (pyStrip (pySlice response jsonStart jsonEnd))
        else none
      | none => none
    | none => none
  match m1 with
  | some r => r
  | none =>
    -- method 2: any fenced block, skipping a short language tag line
    let m2 : Option (List Char) :=
      match pyFind response fence 0 with
      | some f =>
        let jsonStart := f + 3
        let jsonStart :=
          match pyFind response ['\n'] jsonStart with
          | some nl => if jsonStart < nl ∧ nl - jsonStart < 20 then nl + 1 else jsonStart
          | none => jsonStart
        match pyFind response fence jsonStart with
        | some jsonEnd =>
          if jsonStart < jsonEnd then some (pyStrip (pySlice response jsonStart jsonEnd))
          else none
        | none => none
      | none => none
    match m2 with
    | some r => r
    | none =>
      -- method 3: first `{` to last `}`
      match pyFind response ['{'] 0 with
      | some jsonStart =>
        match pyRfind response ['}'] with
        | some jsonEnd =>
          if jsonStart < jsonEnd then pySlice response jsonStart (jsonEnd + 1) else []
        | none => []
      | none => []

/-! ## Truncation to a valid point (`_truncate_to_valid_point`, lines 728-781)

The three regex strategies are `re.match`ed with `re.DOTALL`; their
backtracking behaviour is implemented directly.  For each strategy the group
`(1)` ends at a candidate position tried right to left (the greedy `.*`),
and the rest of the pattern is a deterministic matcher. -/

/-- `True` iff a closing brace/bracket occurs nowhere in `r`
(matcher for `[^\x7d\x5d]*$`). -/
def noClosers (r : List Char) : Bool :=
  r.all (fun c => c ≠ '}' && c ≠ ']')

/-- Matcher for the strategy-1 tail `\s*,?\s*"[^"]*"\s*:\s*[^\x7d\x5d]*$`:
whitespace, at most one comma, a quoted span, a colon, then no closers. -/
def tailMatch1 (r : List Char) : Bool :=
  let r := r.dropWhile pyWs
  let r := match r with
    | ',' :: rest => rest.dropWhile pyWs
    | _ => r
  match r with
  | '"' :: rest =>
    let body := rest.dropWhile (· ≠ '"')
    match body with
    | '"' :: rest2 =>
      match rest2.dropWhile pyWs with
      | ':' :: rest3 => noClosers rest3
      | _ => false
    | _ => false
  | _ => false

/-- Matcher for the strategy-2 tail `\s*,\s*"[^"]*"\s*:?\s*[^\x7d\x5d]*$`:
whitespace, a mandatory comma, a quoted span, then no closers (the optional
colon and trailing classes together accept exactly closer-free text). -/
def tailMatch2 (r : List Char) : Bool :=
  match r.dropWhile pyWs with
  | ',' :: rest =>
    match rest.dropWhile pyWs with
    | '"' :: rest2 =>
      match rest2.dropWhile (· ≠ '"') with
      | '"' :: rest3 => noClosers rest3
      | _ => false
    | _ => false
  | _ => false

/-- Candidate end positions `q` of group 1 for strategy 2 at alternation
start `p`: the alternation `true|false|null|\d+|"[^"]*"` anchored at `p`.
The branches have pairwise distinct possible first characters, and `\d+`
must be maximal (anything shorter leaves a digit that the tail `\s*,`
cannot consume), so at most one `q` arises. -/
def strat2AltEnd (s : List Char) (p : Nat) : Option Nat :=
  let rest := s.drop p
  if "true".data.isPrefixOf rest then some (p + 4)
  else if "false".data.isPrefixOf rest then some (p + 5)
  else if "null".data.isPrefixOf rest then some (p + 4)
  else
    match rest with
    | c :: _ =>
      if c.isDigit then some (p + (rest.takeWhile Char.isDigit).length)
      else if c = '"' then
        match (rest.drop 1).dropWhile (· ≠ '"') with
        | '"' :: _ => some (p + 2 + ((rest.drop 1).takeWhile (· ≠ '"')).length)
        | _ => none
      else none
    | [] => none

/-- Strategy 1: `(.*[\x7d\x5d])\s*,?\s*"[^"]*"\s*:\s*[^\x7d\x5d]*$` — group 1
ends just after a closer; candidates are tried right to left. -/
def strat1 (s : List Char) : Option (List Char) :=
  (((List.range s.length).filter
      (fun i => (s.getD i ' ' = '}' || s.getD i ' ' = ']') && tailMatch1 (s.drop (i + 1)))).getLast?).map
    (fun i => s.take (i + 1))

/-- Strategy 2: `(.*(?:true|false|null|\d+|"[^"]*"))\s*,\s*"[^"]*"\s*:?\s*[^\x7d\x5d]*$`
— the greedy `.*` tries alternation start positions right to left. -/
def strat2 (s : List Char) : Option (List Char) :=
  ((((List.range (s.length + 1)).filter
      (fun p => match strat2AltEnd s p with
        | some q => tailMatch2 (s.drop q)
        | none => false)).getLast?).bind
    (fun p => (strat2AltEnd s p).map (fun q => s.take q)))

/-- Strategy 3: `(.*[\x7d\x5d])[^\x7d\x5d]*$` — keep everything up to the
last closing brace/bracket. -/
def strat3 (s : List Char) : Option (List Char) :=
  (((List.range s.length).filter
      (fun i => s.getD i ' ' = '}' || s.getD i ' ' = ']')).getLast?).map
    (fun i => s.take (i + 1))

/-- Characters removed by the `rstrip(' ,\n\t')` calls of the truncation. -/
def rstripSet (c : Char) : Bool :=
  c = ' ' || c = ',' || c = '\n' || c = '\t'

/-- Backwards scan (lines 761-766) for the quote opening the string that
closes at the quote just above index `j+1`: on a backslash the index steps
by two.  `0` encodes Python's `j = -1`. -/
def findOpenQuote (s : List Char) : Nat → Option Nat
  | 0 => none
  | j + 1 =>
    if s.getD j ' ' = '"' then some j
    else if s.getD j ' ' = '\\' then
      match j with
      | 0 => none
      | j' + 1 => findOpenQuote s j'
    else findOpenQuote s j

/-- The backwards character scan that `_truncate_to_valid_point` falls back
to when no regex strategy applies (lines 750-774).  `i` is represented as
`i+1 : Nat` so that `0` encodes Python's `i = -1`; the extra fuel argument
only makes the recursion structural (the scan index strictly decreases, so
fuel `s.length + 1` is never exhausted). -/
def fallbackScanAux (s : List Char) : Nat → Nat → Nat
  | 0, _ => s.length
  | _ + 1, 0 => s.length
  | fuel + 1, i + 1 =>
    let c := s.getD i ' '
    if c = '}' ∨ c = ']' then i + 1
    else if c = '"' then
      match findOpenQuote s i with
      | some j =>
        let before := pyRstrip (s.take j) pyWs
        if before.getLast? = some ':' ∨ before.getLast? = some ',' ∨
            before.getLast? = some '[' ∨ before.getLast? = some '{' then i + 1
        else match j with
          | 0 => s.length
          | j' + 1 => fallbackScanAux s fuel j'
      | none => s.length  -- j reached -1: i = j, then i -= 1 exits the loop
    else fallbackScanAux s fuel i

/-- The whole backwards scan, started at the last index. -/
def fallbackScan (s : List Char) (i : Nat) : Nat :=
  fallbackScanAux s (s.length + 1) i

/-- `re.sub(r',\s*$', '', r)`: drop one trailing comma together with the
whitespace following it. -/
def dropTrailingComma (r : List Char) : List Char :=
  let v := r.reverse.dropWhile pyWs
  match v with
  | ',' :: v' => v'.reverse
  | _ => r

/-- `_truncate_to_valid_point`: try the three regex strategies in order
(accepting the first whose stripped group is nonempty), otherwise run the
backwards scan. -/
def truncate_to_valid_point (s : List Char) : List Char :=
  let try1 := (strat1 s).map (fun g => pyRstrip g rstripSet)
  match try1 with
  | some r =>
    if r ≠ [] then r else
      truncateRest s
  | none => truncateRest s
where
  truncateRest (s : List Char) : List Char :=
    let try2 := (strat2 s).map (fun g => pyRstrip g rstripSet)
    match try2 with
    | some r => if r ≠ [] then r else truncateRest3 s
    | none => truncateRest3 s
  truncateRest3 (s : List Char) : List Char :=
    let try3 := (strat3 s).map (fun g => pyRstrip g rstripSet)
    match try3 with
    | some r => if r ≠ [] then r else truncateFallback s
    | none => truncateFallback s
  truncateFallback (s : List Char) : List Char :=
    let lastValid := fallbackScan s s.length
    dropTrailingComma (pyRstrip (s.take lastValid) rstripSet)

/-! ## Bracket repair (`_fix_incomplete_json`, lines 684-726) -/

/-- The bracket replay of lines 711-719: push the matching closer on every
opener, pop on a matching closer (a mismatched closer is ignored).  The
stack is kept top-first, so the final stack read left to right is already
Python's `''.join(reversed(bracket_stack))`. -/
def bracketReplay (st : List Char) : List Char → List Char
  | [] => st
  | c :: rest =>
    if c = '{' then bracketReplay ('}' :: st) rest
    else if c = '[' then bracketReplay (']' :: st) rest
    else if c = '}' ∨ c = ']' then
      -- `if bracket_stack and bracket_stack[-1] == char: bracket_stack.pop()`
      if st.head? = some c then bracketReplay st.tail rest else bracketReplay st rest
    else bracketReplay st rest

/-- Whether the `{`/`}` and `[`/`]` counts of `s` are each balanced
(the test of line 698). -/
def balancedCounts (s : List Char) : Bool :=
  countChar '{' s = countChar '}' s && countChar '[' s = countChar ']' s

/-- `_fix_incomplete_json`: strip, drop a trailing ellipsis, and if the
bracket counts are unbalanced, truncate to a valid point and append the
replay stack. -/
def fix_incomplete_json (s : List Char) : List Char :=
  let t := stripTrailingDots (pyStrip s)
  if balancedCounts t then t
  else
    let u := truncate_to_valid_point t
    u ++ bracketReplay [] u

/-! ## Calendar dates

`strptime`/`timedelta`/`strftime` round-trips are modelled on day ordinals
(days since 1970-01-01); `civilFromDays` is the standard civil-from-days
conversion, here entirely in `Nat` (after the epoch shift every
intermediate quantity is nonnegative, so all division conventions agree). -/

/-- Gregorian `(year, month, day)` of a day ordinal. -/
def civilFromDays (n : Nat) : Nat × Nat × Nat :=
  let z := n + 719468
  let era := z / 146097
  let doe := z % 146097
  let yoe := (doe - doe / 1460 + doe / 36524 - doe / 146096) / 365
  let y := yoe + era * 400
  let doy := doe - (365 * yoe + yoe / 4 - yoe / 100)
  let mp := (5 * doy + 2) / 153
  let d := doy - (153 * mp + 2) / 5 + 1
  let m := if mp < 10 then mp + 3 else mp - 9
  (if m ≤ 2 then y + 1 else y, m, d)

/-- Decimal rendering of `n` left-padded with zeros to width `w`. -/
def padNum (w : Nat) (n : Nat) : String :=
  let s := toString n
  ⟨List.replicate (w - s.length) '0' ++ s.data⟩

/-- `strftime("%Y-%m-%d")` of a day ordinal. -/
def formatDate (n : Nat) : String :=
  let c := civilFromDays n
  padNum 4 c.1 ++ "-" ++ padNum 2 c.2.1 ++ "-" ++ padNum 2 c.2.2

/-! ## JSON values and `json.loads` -/

/-- A parsed JSON document.  Numbers are rationals (covering the ints and
decimal floats the pipeline meets); objects are insertion-ordered
association lists with unique keys, like Python dicts. -/
inductive Json where
  | null : Json
  | bool (b : Bool) : Json
  | num (q : ℚ) : Json
  | str (s : String) : Json
  | arr (items : List Json) : Json
  | obj (fields : List (String × Json)) : Json

/-- Python truthiness of a JSON value (`bool(x)`). -/
def pyTruthy : Json → Bool
  | .null => false
  | .bool b => b
  | .num q => decide (q ≠ 0)
  | .str s => decide (s ≠ "")
  | .arr l => !l.isEmpty
  | .obj f => !f.isEmpty

namespace JsonParse

/-- Skip JSON whitespace. -/
def skipWs (s : List Char) : List Char :=
  s.dropWhile (fun c => c = ' ' || c = '\t' || c = '\n' || c = '\r')

/-- Parse an unsigned decimal integer, returning it with the rest. -/
def parseNat (s : List Char) : Option (Nat × List Char) :=
  let ds := s.takeWhile Char.isDigit
  if ds = [] then none
  else some (ds.foldl (fun n c => n * 10 + (c.toNat - '0'.toNat)) 0, s.drop ds.length)

/-- Parse a JSON number (optional minus, integer part, optional fraction). -/
def parseNum (s : List Char) : Option (ℚ × List Char) :=
  let (neg, s) := match s with
    | '-' :: rest => (true, rest)
    | _ => (false, s)
  match parseNat s with
  | none => none
  | some (ip, s) =>
    let (q, s) := match s with
      | '.' :: rest =>
        match parseNat rest with
        | some (fp, s') =>
          let k := (rest.takeWhile Char.isDigit).length
          ((ip : ℚ) + (fp : ℚ) / ((10 : ℚ) ^ k), s')
        | none => ((ip : ℚ), '.' :: rest)
      | _ => ((ip : ℚ), s)
    some (if neg then -q else q, s)

/-- Parse a JSON string body after the opening quote (the common escapes). -/
def parseStringBody : List Char → Nat → Option (List Char × List Char)
  | [], _ => none
  | _, 0 => none
  | '"' :: rest, _ => some ([], rest)
  | '\\' :: e :: rest, fuel + 1 =>
    let c : Option Char := match e with
      | '"' => some '"'
      | '\\' => some '\\'
      | '/' => some '/'
      | 'n' => some '\n'
      | 't' => some '\t'
      | 'r' => some '\r'
      | _ => none
    match c with
    | some c => (parseStringBody rest fuel).map (fun (b, r) => (c :: b, r))
    | none => none
  | c :: rest, fuel + 1 => (parseStringBody rest fuel).map (fun (b, r) => (c :: b, r))

mutual

/-- Recursive-descent JSON value parser (fuel-indexed). -/
def parseVal : List Char → Nat → Option (Json × List Char)
  | _, 0 => none
  | s, fuel + 1 =>
    match skipWs s with
    | [] => none
    | '{' :: rest => parseMembers rest fuel [] true
    | '[' :: rest => parseItems rest fuel [] true
    | '"' :: rest => (parseStringBody rest fuel).map (fun (b, r) => (.str ⟨b⟩, r))
    | 't' :: rest =>
      if "rue".data.isPrefixOf rest then some (.bool true, rest.drop 3) else none
    | 'f' :: rest =>
      if "alse".data.isPrefixOf rest then some (.bool false, rest.drop 4) else none
    | 'n' :: rest =>
      if "ull".data.isPrefixOf rest then some (.null, rest.drop 3) else none
    | s' => (parseNum s').map (fun (q, r) => (.num q, r))

/-- Object members; `first` marks that no member was read yet. -/
def parseMembers : List Char → Nat → List (String × Json) → Bool → Option (Json × List Char)
  | _, 0, _, _ => none
  | s, fuel + 1, acc, first =>
    match skipWs s with
    | '"' :: rest =>
      match parseStringBody rest fuel with
      | some (k, r) =>
        match skipWs r with
        | ':' :: r2 =>
          match parseVal r2 fuel with
          | some (v, r3) =>
            -- a later duplicate key replaces the earlier one, as in Python
            let acc := if acc.any (fun kv => kv.1 = (⟨k⟩ : String)) then
                acc.map (fun kv => if kv.1 = (⟨k⟩ : String) then (kv.1, v) else kv)
              else (⟨k⟩, v) :: acc
            match skipWs r3 with
            | ',' :: r4 => parseMembers r4 fuel acc false
            | '}' :: r4 => some (.obj acc.reverse, r4)
            | _ => none
          | none => none
        | _ => none
      | none => none
    | '}' :: rest => if first then some (.obj acc.reverse, rest) else none
    | _ => none

/-- Array items. -/
def parseItems : List Char → Nat → List Json → Bool → Option (Json × List Char)
  | _, 0, _, _ => none
  | s, fuel + 1, acc, first =>
    match skipWs s with
    | ']' :: rest => if first then some (.arr acc.reverse, rest) else none
    | s' =>
      match parseVal s' fuel with
      | some (v, r) =>
        match skipWs r with
        | ',' :: r2 => parseItems r2 fuel (v :: acc) false
        | ']' :: r2 => some (.arr (v :: acc).reverse, r2)
        | _ => none
      | none => none

end

end JsonParse

/-- `json.loads`: parse a complete JSON document (only trailing whitespace
may follow the value). -/
def jsonLoads (s : List Char) : Except String Json :=
  match JsonParse.parseVal s (s.length + 1) with
  | some (v, rest) =>
    if JsonParse.skipWs rest = [] then .ok v else .error "Extra data"
  | none => .error "Expecting value"

/-! ## The request and plan records -/

/-- Modelled from the spec: the pydantic `TripRequest` schema
(`app.schemas.travel_plan_related_schemas`) is not among the sources; per
§3 of the spec the request is "the immutable trip request snapshot (city,
date range, day count, transportation, accommodation, preference tags)".
The date range is a pair of calendar dates, held as day ordinals
(`formatDate` renders the `%Y-%m-%d` string the Python code stores). -/
structure TripRequest where
  city : String
  start_date : Nat
  end_date : Nat
  travel_days : Nat
  transportation : String
  accommodation : String
  preferences : List String

structure Location where
  longitude : ℚ
  latitude : ℚ
deriving DecidableEq

structure Attraction where
  name : String
  address : String
  location : Location
  visit_duration : ℚ
  description : String
  category : String

structure Meal where
  type : String
  name : String
  description : String

structure DayPlan where
  date : String
  day_index : ℚ
  description : String
  transportation : String
  accommodation : String
  hotel : Option Json
  attractions : List Attraction
  meals : List Meal

/-- Modelled from the spec: the pydantic `TripPlan` schema is not among the
sources; per §3 it is "a city, a date range, an ordered sequence of
day-plans, a list of weather records, free-text overall suggestions, and an
optional budget".  The hotel, weather and budget payloads are carried
opaquely (their inner validation is irrelevant to every claim). -/
structure TripPlan where
  city : String
  start_date : String
  end_date : String
  days : List DayPlan
  weather_info : List Json
  overall_suggestions : String
  budget : Option Json

/-! ## Plan validation (`TripPlan(**data)`)

Modelled from the spec: pydantic validation of the backfilled structure,
§4.5 Step 4 — "any remaining schema violation (wrong types, invalid enum
for meal type, etc.) surfaces as a recovery error". -/

def asStr : Json → Except String String
  | .str s => .ok s
  | _ => .error "str expected"

def asNum : Json → Except String ℚ
  | .num q => .ok q
  | _ => .error "number expected"

def asArr : Json → Except String (List Json)
  | .arr l => .ok l
  | _ => .error "list expected"

def asObj : Json → Except String (List (String × Json))
  | .obj f => .ok f
  | _ => .error "object expected"

/-- Fetch a required field. -/
def reqField (f : List (String × Json)) (k : String) : Except String Json :=
  match pyGet f k with
  | some v => .ok v
  | none => .error ("field required: " ++ k)

/-- Element-wise validation of a list (pydantic `List[...]` fields): the
first failure aborts. -/
def mapE {α β : Type} (f : α → Except String β) : List α → Except String (List β)
  | [] => .ok []
  | x :: xs => do
    let y ← f x
    let ys ← mapE f xs
    .ok (y :: ys)

def locationOfJson (j : Json) : Except String Location := do
  let f ← asObj j
  let lon ← asNum (← reqField f "longitude")
  let lat ← asNum (← reqField f "latitude")
  .ok ⟨lon, lat⟩

def attractionOfJson (j : Json) : Except String Attraction := do
  let f ← asObj j
  let name ← asStr (← reqField f "name")
  let address ← asStr (← reqField f "address")
  let location ← locationOfJson (← reqField f "location")
  let dur ← asNum (← reqField f "visit_duration")
  let descr ← asStr (← reqField f "description")
  let category ← asStr (← reqField f "category")
  .ok ⟨name, address, location, dur, descr, category⟩

/-- The meal-type enum of the spec: `breakfast`, `lunch` or `dinner`. -/
def mealOfJson (j : Json) : Except String Meal := do
  let f ← asObj j
  let t ← asStr (← reqField f "type")
  if t = "breakfast" ∨ t = "lunch" ∨ t = "dinner" then
    let name ← asStr (← reqField f "name")
    let descr ← asStr (← reqField f "description")
    .ok ⟨t, name, descr⟩
  else .error "invalid meal type"

def dayPlanOfJson (j : Json) : Except String DayPlan := do
  let f ← asObj j
  let date ← asStr (← reqField f "date")
  let idx ← asNum (← reqField f "day_index")
  let descr ← asStr (← reqField f "description")
  let transportation ← asStr (← reqField f "transportation")
  let accommodation ← asStr (← reqField f "accommodation")
  let attractions ← mapE attractionOfJson (← asArr (← reqField f "attractions"))
  let meals ← mapE mealOfJson (← asArr (← reqField f "meals"))
  .ok ⟨date, idx, descr, transportation, accommodation, pyGet f "hotel", attractions, meals⟩

def tripPlanOfJson (j : Json) : Except String TripPlan := do
  let f ← asObj j
  let city ← asStr (← reqField f "city")
  let sd ← asStr (← reqField f "start_date")
  let ed ← asStr (← reqField f "end_date")
  let days ← mapE dayPlanOfJson (← asArr (← reqField f "days"))
  let weather ← asArr (← reqField f "weather_info")
  let sugg ← asStr (← reqField f "overall_suggestions")
  .ok ⟨city, sd, ed, days, weather, sugg, pyGet f "budget"⟩

/-! ## Field backfill (`_ensure_required_fields`, lines 783-837) -/

/-- The required per-day keys, in the order the Python code checks them
(which is also the key order of a synthesized day dict). -/
def dayKeyNames : List String :=
  ["date", "day_index", "description", "transportation", "accommodation",
   "attractions", "meals"]

/-- The per-day key/value pairs backfilled for the day at position `i`
(lines 806-831): the derivations used both by the padding loop's dict
literal and by the per-day `setdefault` chain. -/
def dayFields (req : TripRequest) (i : Nat) : List (String × Json) :=
  [("date", .str (formatDate (req.start_date + i))),
   ("day_index", .num i),
   ("description", .str ("第" ++ toString (i + 1) ++ "天行程")),
   ("transportation", .str req.transportation),
   ("accommodation", .str req.accommodation),
   ("attractions", .arr []),
   ("meals", .arr [])]

/-- The synthetic trailing day appended while `len(data['days'])` is short
(lines 803-814). -/
def synthDay (req : TripRequest) (idx : Nat) : Json :=
  .obj (dayFields req idx)

/-- `data.setdefault`-shaped step: `if k not in data: data[k] = v`. -/
def setDefault (f : List (String × Json)) (k : String) (v : Json) :
    List (String × Json) :=
  if pyHasKey f k then f else f ++ [(k, v)]

/-- Python `key in day` for a JSON day entry that supports `in`:
containment on a dict, substring test on a string, element test on a
list. -/
def dayHasKeyB (d : Json) (k : String) : Bool :=
  match d with
  | .obj f => pyHasKey f k
  | .str s => (pyFind s.data k.data 0).isSome
  | .arr l => l.any (fun e => match e with | .str s => s = k | _ => false)
  | _ => false

/-- All seven required day keys are "present" in the Python `in` sense. -/
def dayKeysOkB (d : Json) : Bool :=
  dayKeyNames.all (dayHasKeyB d)

/-- Python `key in day` for an arbitrary JSON day entry: `TypeError` on a
number, boolean or null. -/
def dayHasKey (d : Json) (k : String) : Except String Bool :=
  match d with
  | .obj _ => .ok (dayHasKeyB d k)
  | .str _ => .ok (dayHasKeyB d k)
  | .arr _ => .ok (dayHasKeyB d k)
  | _ => .error "TypeError: argument is not iterable"

/-- One `if k not in day: day[k] = v` step of the per-day loop: writing
into a non-dict entry raises. -/
def daySetDefault (d : Json) (k : String) (v : Json) : Except String Json := do
  if ← dayHasKey d k then .ok d
  else match d with
    | .obj f => .ok (.obj (f ++ [(k, v)]))
    | _ => .error "TypeError: item assignment"

/-- The sequential `setdefault` chain over a field list. -/
def backfillFields : Json → List (String × Json) → Except String Json
  | d, [] => .ok d
  | d, kv :: rest => do
    let d' ← daySetDefault d kv.1 kv.2
    backfillFields d' rest

/-- The per-day backfill of lines 817-831 for the day at position `i`. -/
def backfillDay (req : TripRequest) (i : Nat) (d : Json) : Except String Json :=
  backfillFields d (dayFields req i)

/-- `enumerate(data['days'])` driving `backfillDay`. -/
def backfillDays (req : TripRequest) : List Json → Nat → Except String (List Json)
  | [], _ => .ok []
  | d :: rest, i => do
    let d' ← backfillDay req i d
    let rest' ← backfillDays req rest (i + 1)
    .ok (d' :: rest')

/-- The `while len(data['days']) < request.travel_days` padding loop. -/
def padDays (req : TripRequest) (ds : List Json) : List Json :=
  ds ++ ((List.range req.travel_days).drop ds.length).map (synthDay req)

/-- Lines 802-835 once the day list `ds` is in hand: pad it, backfill every
entry, store it back and default `weather_info`.  (The Python code mutates
`data['days']` in place; storing the final list back into the dict has the
same observable effect and keeps the key position.) -/
def ensureDays (req : TripRequest) (fs : List (String × Json)) (ds : List Json) :
    Except String Json :=
  match backfillDays req (padDays req ds) 0 with
  | .ok ds' =>
    .ok (.obj (setDefault (pySet fs "days" (.arr ds')) "weather_info" (.arr [])))
  | .error e => .error e

/-- The four top-level `setdefault`s of lines 788-795. -/
def ensureTop (req : TripRequest) (fs : List (String × Json)) :
    List (String × Json) :=
  setDefault (setDefault (setDefault (setDefault fs
    "city" (.str req.city))
    "start_date" (.str (formatDate req.start_date)))
    "end_date" (.str (formatDate req.end_date)))
    "overall_suggestions" (.str ("祝您在" ++ req.city ++ "旅途愉快！"))

/-- Lines 797-835: normalise `data['days']` (absent or falsy becomes `[]`,
truthy non-list raises at `len()`) and run `ensureDays`. -/
def ensureWithDays (req : TripRequest) (fs : List (String × Json)) :
    Except String Json :=
  match pyGet fs "days" with
  | none => ensureDays req (pySet fs "days" (.arr [])) []
  | some v =>
    if pyTruthy v then
      match v with
      | .arr ds => ensureDays req fs ds
      | _ => .error "TypeError: object has no len()"
    else ensureDays req (pySet fs "days" (.arr [])) []

/-- `_ensure_required_fields`: backfill the top-level fields, normalise and
pad the day array, backfill every day, and default `weather_info`.
A non-dict top level always raises in the Python code (`in` on a number
raises immediately; on a string or list the `data['days']` access of line
798 raises). -/
def ensure_required_fields (data : Json) (req : TripRequest) : Except String Json :=
  match data with
  | .obj fs => ensureWithDays req (ensureTop req fs)
  | _ => .error "TypeError: non-dict toplevel"

/-! ## The fallback generator (`_create_fallback_plan`, lines 839-883) -/

/-- `_create_fallback_plan`: the deterministic synthetic plan. -/
def create_fallback_plan (req : TripRequest) : TripPlan :=
  { city := req.city
    start_date := formatDate req.start_date
    end_date := formatDate req.end_date
    days := (List.range req.travel_days).map (fun i =>
      { date := formatDate (req.start_date + i)
        day_index := i
        description := "第" ++ toString (i + 1) ++ "天行程"
        transportation := req.transportation
        accommodation := req.accommodation
        hotel := none
        attractions := (List.range 2).map (fun (j : Nat) =>
          { name := req.city ++ "景点" ++ toString (j + 1)
            address := req.city ++ "市"
            location :=
              { longitude := 1164 / 10 + (i : ℚ) * (1 / 100) + (j : ℚ) * (1 / 200)
                latitude := 399 / 10 + (i : ℚ) * (1 / 100) + (j : ℚ) * (1 / 200) }
            visit_duration := 120
            description := "这是" ++ req.city ++ "的著名景点"
            category := "景点" })
        meals :=
          [⟨"breakfast", "第" ++ toString (i + 1) ++ "天早餐", "当地特色早餐"⟩,
           ⟨"lunch", "第" ++ toString (i + 1) ++ "天午餐", "午餐推荐"⟩,
           ⟨"dinner", "第" ++ toString (i + 1) ++ "天晚餐", "晚餐推荐"⟩] })
    weather_info := []
    overall_suggestions :=
      "这是为您规划的" ++ req.city ++ toString req.travel_days ++
        "日游行程,建议提前查看各景点的开放时间。"
    budget := none }

/-! ## The response pipeline and `plan_trip` (lines 567-653) -/

/-- The body of `_parse_response`'s `try` block: extraction, repair,
`json.loads`, field backfill and plan construction, any of which may
raise. -/
def parse_attempt (response : String) (req : TripRequest) : Except String TripPlan := do
  let json_str := extract_json response.data
  if json_str.isEmpty then .error "响应中未找到JSON数据"
  else
    let json_str := fix_incomplete_json json_str
    let data ← jsonLoads json_str
    let data ← ensure_required_fields data req
    tripPlanOfJson data

/-- `_parse_response`: every failure of the recovery pipeline falls back to
the synthetic plan. -/
def parse_response (response : String) (req : TripRequest) : TripPlan :=
  match parse_attempt response req with
  | .ok p => p
  | .error _ => create_fallback_plan req

/-- `plan_trip`: the workflow invocation (graph compilation, LLM and tool
calls) is abstracted by its outcome `workflow` — either the `final_plan`
text of the final state or a raised exception; an exception falls through
to the fallback generator. -/
def plan_trip (req : TripRequest) (workflow : Except String String) : TripPlan :=
  match workflow with
  | .ok final_plan => parse_response final_plan req
  | .error _ => create_fallback_plan req

/-! ## Batch image lookup (`unsplash_service.py`, lines 65-125)

`search_photos` catches every exception (network errors and timeouts
included) and returns an empty result list, so `get_photo_url` is total;
it is abstracted here by `lookup : String → Option String` (`none` when the
query yields no photo, i.e. failed or timed out).  The thread pool only
affects the dict's insertion order through `as_completed`; each name's
value is independent of the others, so the mapping contents are
order-independent and the fold below builds them in submission order. -/

/-- Python falsiness of `get_photo_url`'s result (`if not url`): `None` or
the empty string. -/
def urlFalsy : Option String → Bool
  | none => true
  | some s => s = ""

/-- `fetch_photo` (lines 109-113): try `"<name> China landmark"`, then the
bare name. -/
def fetch_photo (lookup : String → Option String) (name : String) : Option String :=
  let url := lookup (name ++ " China landmark")
  if urlFalsy url then lookup name else url

/-- `batch_get_photo_urls`: aggregate `fetch_photo` over the names into a
dict. -/
def batch_get_photo_urls (lookup : String → Option String) (names : List String) :
    List (String × Option String) :=
  names.foldl (fun acc n => pySet acc n (fetch_photo lookup n)) []

/-! ## Association-list (Python dict) lemmas -/

/-- The key list of a dict. -/
@[reducible] def keys {β : Type} (d : List (String × β)) : List String :=
  d.map Prod.fst

theorem anyKey_iff {β : Type} (d : List (String × β)) (k : String) :
    (d.any fun kv => kv.1 = k) = true ↔ k ∈ keys d := by
  simp [List.any_eq_true, keys]

theorem anyKey_eq_false {β : Type} {d : List (String × β)} {k : String}
    (h : k ∉ keys d) : (d.any fun kv => kv.1 = k) = false := by
  rw [Bool.eq_false_iff]
  intro hc
  exact h ((anyKey_iff d k).mp hc)

theorem pyHasKey_iff {β : Type} (d : List (String × β)) (k : String) :
    pyHasKey d k = true ↔ k ∈ keys d :=
  anyKey_iff d k

theorem pySet_of_not_mem {β : Type} {d : List (String × β)} {k : String} (v : β)
    (h : k ∉ keys d) : pySet d k v = d ++ [(k, v)] := by
  simp [pySet, anyKey_eq_false h]

theorem find_map_repl {β : Type} {d : List (String × β)} {k : String} (v : β)
    (h : d.any (fun kv => kv.1 = k) = true) :
    (d.map (fun kv => if kv.1 = k then (k, v) else kv)).find?
      (fun kv => kv.1 = k) = some (k, v) := by
  induction d with
  | nil => simp at h
  | cons a t ih =>
    by_cases ha : a.1 = k
    · simp only [List.map_cons, if_pos ha]
      exact List.find?_cons_of_pos _ (by simp)
    · simp only [List.any_cons, Bool.or_eq_true, decide_eq_true_eq] at h
      rcases h with h | h
      · exact absurd h ha
      · simp only [List.map_cons, if_neg ha]
        rw [List.find?_cons_of_neg _ (by simpa using ha)]
        exact ih h

theorem find_map_repl_ne {β : Type} {d : List (String × β)} {k k' : String} (v : β)
    (hk : k' ≠ k) :
    (d.map (fun kv => if kv.1 = k then (k, v) else kv)).find?
      (fun kv => kv.1 = k') = d.find? (fun kv => kv.1 = k') := by
  induction d with
  | nil => simp
  | cons a t ih =>
    by_cases ha : a.1 = k
    · simp only [List.map_cons, if_pos ha]
      rw [List.find?_cons_of_neg _ (by simpa using Ne.symm hk),
        List.find?_cons_of_neg _ (by simp [ha, Ne.symm hk])]
      exact ih
    · simp only [List.map_cons, if_neg ha]
      by_cases ha' : a.1 = k'
      · rw [List.find?_cons_of_pos _ (by simpa using ha'),
          List.find?_cons_of_pos _ (by simpa using ha')]
      · rw [List.find?_cons_of_neg _ (by simpa using ha'),
          List.find?_cons_of_neg _ (by simpa using ha')]
        exact ih

theorem find?_key_eq_none {β : Type} {d : List (String × β)} {k : String}
    (h : k ∉ keys d) : d.find? (fun kv => kv.1 = k) = none := by
  rw [List.find?_eq_none]
  intro kv hm
  simp only [decide_eq_true_eq]
  exact fun he => h (he ▸ List.mem_map_of_mem Prod.fst hm)

theorem pyGet_pySet_self {β : Type} (d : List (String × β)) (k : String) (v : β) :
    pyGet (pySet d k v) k = some v := by
  unfold pySet
  by_cases h : d.any (fun kv => kv.1 = k) = true
  · simp [if_pos h, pyGet, find_map_repl v h]
  · simp only [Bool.not_eq_true] at h
    have hnm : k ∉ keys d := fun hm => by simp [(anyKey_iff d k).mpr hm] at h
    simp only [h, Bool.false_eq_true, if_false, pyGet, List.find?_append,
      find?_key_eq_none hnm]
    rw [List.find?_cons_of_pos _ (by simp)]
    rfl

theorem pyGet_pySet_ne {β : Type} (d : List (String × β)) {k k' : String} (v : β)
    (h : k' ≠ k) : pyGet (pySet d k v) k' = pyGet d k' := by
  unfold pySet
  by_cases hd : d.any (fun kv => kv.1 = k) = true
  · simp only [if_pos hd, pyGet, find_map_repl_ne v h]
  · simp only [Bool.not_eq_true] at hd
    simp only [hd, Bool.false_eq_true, if_false, pyGet, List.find?_append]
    rw [List.find?_cons_of_neg _ (by simpa using Ne.symm h)]
    simp

theorem keys_pySet {β : Type} (d : List (String × β)) (k : String) (v : β) :
    keys (pySet d k v) = if k ∈ keys d then keys d else keys d ++ [k] := by
  unfold pySet
  by_cases hd : d.any (fun kv => kv.1 = k) = true
  · rw [if_pos hd, if_pos ((anyKey_iff d k).mp hd)]
    simp only [keys, List.map_map]
    apply List.map_congr_left
    intro kv _
    by_cases ha : kv.1 = k <;> simp [ha]
  · simp only [Bool.not_eq_true] at hd
    have hnm : k ∉ keys d := fun hm => by simp [(anyKey_iff d k).mpr hm] at hd
    rw [if_neg (by simp [hd]), if_neg hnm]
    simp [keys]

theorem pyGet_eq_of_mem_nodup {β : Type} {d : List (String × β)} {kv : String × β}
    (hn : (keys d).Nodup) (hm : kv ∈ d) : pyGet d kv.1 = some kv.2 := by
  induction d with
  | nil => simp at hm
  | cons a t ih =>
    simp only [keys, List.map_cons, List.nodup_cons] at hn
    rcases List.mem_cons.mp hm with h | h
    · subst h
      simp only [pyGet]
      rw [List.find?_cons_of_pos _ (by simp)]
      rfl
    · have hne : kv.1 ≠ a.1 := by
        intro he
        exact hn.1 (he ▸ List.mem_map_of_mem Prod.fst h)
      simp only [pyGet]
      rw [List.find?_cons_of_neg _ (by simpa using Ne.symm hne)]
      exact ih hn.2 h

theorem pyGet_eq_none_of_not_mem {β : Type} {d : List (String × β)} {k : String}
    (h : k ∉ keys d) : pyGet d k = none := by
  simp [pyGet, find?_key_eq_none h]

/-! ### C8 and C10: `merge_dicts` -/

theorem pyGet_cons_self {β : Type} (a : String × β) (t : List (String × β)) :
    pyGet (a :: t) a.1 = some a.2 := by
  simp only [pyGet]
  rw [List.find?_cons_of_pos _ (by simp)]
  rfl

theorem pyGet_cons_ne {β : Type} (a : String × β) (t : List (String × β))
    {k : String} (h : k ≠ a.1) : pyGet (a :: t) k = pyGet t k := by
  simp only [pyGet]
  rw [List.find?_cons_of_neg _ (by simpa using Ne.symm h)]

theorem pyUpdate_disjoint {β : Type} :
    ∀ (r d : List (String × β)), (keys r).Nodup → (∀ k ∈ keys r, k ∉ keys d) →
      pyUpdate d r = d ++ r := by
  intro r
  induction r with
  | nil => intro d _ _; simp [pyUpdate]
  | cons a t ih =>
    intro d hr hd
    simp only [keys, List.map_cons, List.nodup_cons] at hr
    have h1 : a.1 ∉ keys d := hd a.1 (by simp [keys])
    have hd2 : ∀ k ∈ keys t, k ∉ keys (d ++ [(a.1, a.2)]) := by
      intro k hk
      simp only [keys, List.map_append, List.mem_append, List.map_cons, List.map_nil,
        List.mem_singleton, not_or]
      exact ⟨fun h => hd k (by simp [keys, hk]) h, fun h => hr.1 (h ▸ hk)⟩
    calc pyUpdate d (a :: t) = pyUpdate (d ++ [(a.1, a.2)]) t := by
          simp [pyUpdate, pySet_of_not_mem a.2 h1]
      _ = (d ++ [(a.1, a.2)]) ++ t := ih (d ++ [(a.1, a.2)]) hr.2 hd2
      _ = d ++ a :: t := by simp

/-- C8: on dicts with disjoint key sets, `merge_dicts` is exactly the
union — the concatenation of the two entry lists, with every key still
bound to its original value on either side. -/
theorem merge_dicts_disjoint (l r : List (String × String))
    (hl : (keys l).Nodup) (hr : (keys r).Nodup)
    (hd : ∀ k ∈ keys l, k ∉ keys r) :
    merge_dicts l r = l ++ r
    ∧ (∀ kv ∈ l, pyGet (merge_dicts l r) kv.1 = some kv.2)
    ∧ (∀ kv ∈ r, pyGet (merge_dicts l r) kv.1 = some kv.2) := by
  have hd' : ∀ k ∈ keys r, k ∉ keys l := fun k hk hm => hd k hm hk
  have he : merge_dicts l r = l ++ r := pyUpdate_disjoint r l hr hd'
  have hn : (keys (l ++ r)).Nodup := by
    simp only [keys, List.map_append] at *
    exact List.Nodup.append hl hr (by
      rw [List.disjoint_right]; intro k hk hm; exact hd' k hk hm)
  refine ⟨he, ?_, ?_⟩
  · intro kv hm
    rw [he]; exact pyGet_eq_of_mem_nodup hn (List.mem_append_left r hm)
  · intro kv hm
    rw [he]; exact pyGet_eq_of_mem_nodup hn (List.mem_append_right l hm)

theorem merge_dicts_disjoint_witness :
    merge_dicts [("attractions", "景点数据")] [("weather", "天气数据")]
        = [("attractions", "景点数据"), ("weather", "天气数据")]
      ∧ pyGet (merge_dicts [("attractions", "景点数据")] [("weather", "天气数据")])
          "attractions" = some "景点数据" := by
  have h := merge_dicts_disjoint [("attractions", "景点数据")] [("weather", "天气数据")]
    (by decide) (by decide) (by decide)
  exact ⟨h.1, h.2.1 ("attractions", "景点数据") (by decide)⟩

/-- `merge_dicts` against an arbitrary right dict, by induction on it. -/
theorem merge_dicts_union_gen :
    ∀ (r l : List (String × String)), (keys l).Nodup → (keys r).Nodup →
      (∀ k, pyGet (merge_dicts l r) k = (pyGet r k <|> pyGet l k))
      ∧ (∀ k, k ∈ keys (merge_dicts l r) ↔ k ∈ keys l ∨ k ∈ keys r) := by
  intro r
  induction r with
  | nil =>
    intro l _ _
    constructor
    · intro k; simp [merge_dicts, pyUpdate, pyGet]
    · intro k; simp [merge_dicts, pyUpdate]
  | cons a t ih =>
    intro l hl hr
    simp only [keys, List.map_cons, List.nodup_cons] at hr
    have hstep : merge_dicts l (a :: t) = merge_dicts (pySet l a.1 a.2) t := by
      simp [merge_dicts, pyUpdate]
    have hln : (keys (pySet l a.1 a.2)).Nodup := by
      rw [keys_pySet]
      by_cases hm : a.1 ∈ keys l
      · simpa [hm]
      · simpa [hm] using List.Nodup.append hl (List.nodup_singleton a.1)
          (by simp [List.disjoint_right, hm])
    have iht := ih (pySet l a.1 a.2) hln hr.2
    constructor
    · intro k
      rw [hstep, iht.1 k]
      by_cases hk : k = a.1
      · subst hk
        have htn : pyGet t a.1 = none :=
          pyGet_eq_none_of_not_mem (by simpa [keys] using hr.1)
        rw [htn, pyGet_pySet_self, pyGet_cons_self]
        simp
      · rw [pyGet_pySet_ne l a.2 hk, pyGet_cons_ne a t hk]
    · intro k
      rw [hstep, iht.2 k, keys_pySet]
      by_cases hm : a.1 ∈ keys l
      · by_cases hk : k = a.1
        · subst hk; simp [hm, keys]
        · simp [hm, keys, hk]
      · by_cases hk : k = a.1
        · subst hk; simp [hm, keys]
        · simp [hm, keys, hk]

/-- C10: `merge_dicts` in general — the key set is the union and the right
dict wins any same-key collision (the Python `dict.update` semantics).  The
arguments are not mutated: the merge is a pure function of the two entry
lists. -/
theorem merge_dicts_union (l r : List (String × String))
    (hl : (keys l).Nodup) (hr : (keys r).Nodup) :
    (∀ k, pyGet (merge_dicts l r) k = (pyGet r k <|> pyGet l k))
    ∧ (∀ k, k ∈ keys (merge_dicts l r) ↔ k ∈ keys l ∨ k ∈ keys r) :=
  merge_dicts_union_gen r l hl hr

theorem merge_dicts_union_witness :
    pyGet (merge_dicts [("weather", "旧值")] [("weather", "新值")]) "weather"
      = (pyGet [("weather", "新值")] "weather" <|> pyGet [("weather", "旧值")] "weather") := by
  exact (merge_dicts_union [("weather", "旧值")] [("weather", "新值")]
    (by decide) (by decide)).1 "weather"

/-! ### C7: what the plan node's `completed_tasks: []` / `agent_results: {}`
actually do under the declared reducers -/

/-- C7 counterexample: starting from a state with non-empty
`completed_tasks`/`agent_results`, merging the plan node's partial state
through the declared reducers (`operator.add`, `merge_dicts`) leaves both
channels at their prior values — they are *not* reset to empty, because
appending `[]` and union-merging `{}` are identity updates. -/
theorem plan_node_reset_counterexample :
    let s : TripPlannerState :=
      { messages := [], request := [], task_plan := "old"
        agent_results := [("weather", "天气数据")]
        completed_tasks := ["attraction"], final_plan := "", current_step := "collect" }
    let s' := applyUpdate s (scheduler_plan_node "新任务计划" [])
    s'.completed_tasks = ["attraction"] ∧ s'.completed_tasks ≠ ([] : List String)
      ∧ s'.agent_results = [("weather", "天气数据")]
      ∧ s'.agent_results ≠ ([] : List (String × String)) := by
  refine ⟨rfl, by decide, rfl, by decide⟩

/-- C7 amended: merging the plan node's returned partial state through each
field's declared reducer *preserves* the prior `completed_tasks` and
`agent_results` (the empty update is an identity for both reducers), while
`task_plan` and `current_step` are overwritten. -/
theorem plan_node_merge_amended (s : TripPlannerState)
    (resp : String) (msgs : List String) :
    (applyUpdate s (scheduler_plan_node resp msgs)).completed_tasks = s.completed_tasks
    ∧ (applyUpdate s (scheduler_plan_node resp msgs)).agent_results = s.agent_results
    ∧ (applyUpdate s (scheduler_plan_node resp msgs)).task_plan = resp
    ∧ (applyUpdate s (scheduler_plan_node resp msgs)).current_step = "planning" := by
  refine ⟨by simp [applyUpdate, scheduler_plan_node], ?_, rfl, rfl⟩
  simp [applyUpdate, scheduler_plan_node, merge_dicts, pyUpdate]

/-! ### C9: batch image lookup -/

/-- C9 counterexample: with a duplicated name the result dict has fewer
keys than input names — `batch_get_photo_urls` on two names yields one
entry, not two. -/
theorem batch_photos_counterexample :
    (batch_get_photo_urls (fun _ => none) ["故宫", "故宫"]).length = 1
      ∧ ([("故宫" : String), "故宫"].length = 2) := by
  constructor
  · rfl
  · rfl

/-- One key per *distinct* pending name is added as the futures complete. -/
theorem batch_photos_gen (lookup : String → Option String) :
    ∀ (names : List String) (acc : List (String × Option String)),
      names.Nodup → (∀ n ∈ names, n ∉ keys acc) →
      names.foldl (fun acc n => pySet acc n (fetch_photo lookup n)) acc
        = acc ++ names.map (fun n => (n, fetch_photo lookup n)) := by
  intro names
  induction names with
  | nil => intro acc _ _; simp
  | cons a t ih =>
    intro acc hn hd
    simp only [List.nodup_cons] at hn
    have h1 : a ∉ keys acc := hd a (by simp)
    have hd2 : ∀ n ∈ t, n ∉ keys (acc ++ [(a, fetch_photo lookup a)]) := by
      intro n hm
      simp only [keys, List.map_append, List.mem_append, List.map_cons, List.map_nil,
        List.mem_singleton, not_or]
      exact ⟨fun h => hd n (by simp [hm]) h, fun h => hn.1 (h ▸ hm)⟩
    calc (a :: t).foldl (fun acc n => pySet acc n (fetch_photo lookup n)) acc
        = t.foldl (fun acc n => pySet acc n (fetch_photo lookup n))
            (acc ++ [(a, fetch_photo lookup a)]) := by
          simp [pySet_of_not_mem _ h1]
      _ = (acc ++ [(a, fetch_photo lookup a)])
            ++ t.map (fun n => (n, fetch_photo lookup n)) := ih _ hn.2 hd2
      _ = acc ++ (a :: t).map (fun n => (n, fetch_photo lookup n)) := by simp

/-- C9 amended: for pairwise-distinct names, `batch_get_photo_urls` returns
one entry per input name (in submission order), each name bound to its own
`fetch_photo` outcome — so a failed or timed-out lookup (`none`, since
`search_photos` catches every exception) yields a missing URL for that name
only and never aborts the batch. -/
theorem batch_photos_amended (lookup : String → Option String)
    (names : List String) (hn : names.Nodup) :
    keys (batch_get_photo_urls lookup names) = names
    ∧ ∀ n ∈ names,
        pyGet (batch_get_photo_urls lookup names) n = some (fetch_photo lookup n) := by
  have he : batch_get_photo_urls lookup names
      = names.map (fun n => (n, fetch_photo lookup n)) := by
    have := batch_photos_gen lookup names [] hn (by simp [keys])
    simpa [batch_get_photo_urls] using this
  have hkeys : keys (batch_get_photo_urls lookup names) = names := by
    simp only [he, keys, List.map_map]
    exact List.map_id'' (fun _ => rfl) names
  refine ⟨hkeys, fun n hm => ?_⟩
  have : (n, fetch_photo lookup n) ∈ batch_get_photo_urls lookup names := by
    rw [he]; exact List.mem_map_of_mem _ hm
  exact pyGet_eq_of_mem_nodup (by rw [hkeys]; exact hn) this

theorem batch_photos_amended_witness :
    keys (batch_get_photo_urls
        (fun q => if q = "故宫 China landmark" then some "https://img/gugong" else none)
        ["故宫", "长城"]) = ["故宫", "长城"]
    ∧ pyGet (batch_get_photo_urls
        (fun q => if q = "故宫 China landmark" then some "https://img/gugong" else none)
        ["故宫", "长城"]) "长城" = some none := by
  have h := batch_photos_amended
    (fun q => if q = "故宫 China landmark" then some "https://img/gugong" else none)
    ["故宫", "长城"] (by decide)
  refine ⟨h.1, ?_⟩
  have h2 := h.2 "长城" (by simp)
  rw [h2]
  rfl

/-! ### C4 and C5: the bracket repair -/

/-- Prefix-validity of a text's bracket structure: the replay never meets a
closer that fails to match the innermost open bracket (the spec's "pop on a
matching closer" reading, under which the remaining stack is exactly the
closers still needed). -/
def bracketReplayOk (st : List Char) : List Char → Bool
  | [] => true
  | c :: rest =>
    if c = '{' then bracketReplayOk ('}' :: st) rest
    else if c = '[' then bracketReplayOk (']' :: st) rest
    else if c = '}' ∨ c = ']' then
      decide (st.head? = some c) && bracketReplayOk st.tail rest
    else bracketReplayOk st rest

/-- On prefix-valid text the replay's remaining stack holds, per bracket
type, exactly the opener surplus of the text. -/
theorem replay_count : ∀ (s st : List Char), bracketReplayOk st s = true →
    (bracketReplay st s).count '}' + s.count '}' = st.count '}' + s.count '{'
    ∧ (bracketReplay st s).count ']' + s.count ']' = st.count ']' + s.count '[' := by
  intro s
  induction s with
  | nil => intro st _; simp [bracketReplay]
  | cons c rest ih =>
    intro st h
    by_cases h1 : c = '{'
    · subst h1
      simp only [bracketReplay, bracketReplayOk, if_pos rfl] at h ⊢
      have := ih ('}' :: st) h
      simp [List.count_cons] at this ⊢
      omega
    · by_cases h2 : c = '['
      · subst h2
        simp only [bracketReplay, bracketReplayOk,
          if_neg (show ¬('[' : Char) = '{' by decide), if_pos rfl] at h ⊢
        have := ih (']' :: st) h
        simp [List.count_cons] at this ⊢
        omega
      · by_cases h3 : c = '}' ∨ c = ']'
        · simp only [bracketReplayOk, if_neg h1, if_neg h2, if_pos h3,
            Bool.and_eq_true, decide_eq_true_eq] at h
          obtain ⟨hh, hok⟩ := h
          cases st with
          | nil => simp at hh
          | cons t st' =>
            simp only [List.head?_cons, Option.some.injEq] at hh
            subst hh
            simp only [bracketReplay, if_neg h1, if_neg h2, if_pos h3,
              List.head?_cons, if_pos rfl, List.tail_cons]
            have := ih st' (by simpa using hok)
            rcases h3 with h3 | h3 <;> subst h3 <;>
              · simp [List.count_cons] at this ⊢
                omega
        · simp only [bracketReplay, bracketReplayOk, if_neg h1, if_neg h2, if_neg h3]
            at h ⊢
          have := ih st h
          have hc1 : c ≠ '}' := fun hc => h3 (Or.inl hc)
          have hc2 : c ≠ ']' := fun hc => h3 (Or.inr hc)
          simp [List.count_cons, Ne.symm h1, Ne.symm h2, Ne.symm hc1, Ne.symm hc2]
            at this ⊢
          omega

/-- The replay stack only ever holds closing brackets. -/
theorem replay_stack_closers : ∀ (s st : List Char),
    (∀ x ∈ st, x = '}' ∨ x = ']') →
    ∀ x ∈ bracketReplay st s, x = '}' ∨ x = ']' := by
  intro s
  induction s with
  | nil => intro st h; simpa [bracketReplay] using h
  | cons c rest ih =>
    intro st h
    by_cases h1 : c = '{'
    · subst h1
      simp only [bracketReplay, if_pos rfl]
      exact ih _ (by
        intro x hx
        rcases List.mem_cons.mp hx with hx | hx
        · exact Or.inl hx
        · exact h x hx)
    · by_cases h2 : c = '['
      · subst h2
        simp only [bracketReplay, if_neg (show ¬('[' : Char) = '{' by decide),
          if_pos rfl]
        exact ih _ (by
          intro x hx
          rcases List.mem_cons.mp hx with hx | hx
          · exact Or.inr hx
          · exact h x hx)
      · by_cases h3 : c = '}' ∨ c = ']'
        · simp only [bracketReplay, if_neg h1, if_neg h2, if_pos h3]
          by_cases hh : st.head? = some c
          · rw [if_pos hh]
            exact ih st.tail (fun x hx => h x (List.mem_of_mem_tail hx))
          · rw [if_neg hh]
            exact ih st h
        · simp only [bracketReplay, if_neg h1, if_neg h2, if_neg h3]
          exact ih st h

/-- Replaying a closer-only stack against itself empties it validly. -/
theorem replay_self : ∀ (st : List Char), (∀ x ∈ st, x = '}' ∨ x = ']') →
    bracketReplayOk st st = true ∧ bracketReplay st st = [] := by
  intro st
  induction st with
  | nil => intro _; exact ⟨rfl, rfl⟩
  | cons t st' ih =>
    intro h
    have ht := h t (by simp)
    have ih' := ih (fun x hx => h x (List.mem_cons_of_mem t hx))
    rcases ht with ht | ht <;> subst ht <;>
      simpa [bracketReplayOk, bracketReplay] using ih'

/-- Appending the replay's remaining stack rebalances the text: the result
replays to the empty stack with every closer matching — the closers are
appended in the correct, innermost-first nesting order. -/
theorem replay_append : ∀ (s st : List Char),
    (∀ x ∈ st, x = '}' ∨ x = ']') → bracketReplayOk st s = true →
    bracketReplayOk st (s ++ bracketReplay st s) = true
    ∧ bracketReplay st (s ++ bracketReplay st s) = [] := by
  intro s
  induction s with
  | nil => intro st h _; simpa [bracketReplay] using replay_self st h
  | cons c rest ih =>
    intro st h hok
    by_cases h1 : c = '{'
    · subst h1
      simp only [bracketReplay, bracketReplayOk, if_pos rfl, List.cons_append] at hok ⊢
      exact ih ('}' :: st) (by
        intro x hx
        rcases List.mem_cons.mp hx with hx | hx
        · exact Or.inl hx
        · exact h x hx) hok
    · by_cases h2 : c = '['
      · subst h2
        simp only [bracketReplay, bracketReplayOk,
          if_neg (show ¬('[' : Char) = '{' by decide), if_pos rfl,
          List.cons_append] at hok ⊢
        exact ih (']' :: st) (by
          intro x hx
          rcases List.mem_cons.mp hx with hx | hx
          · exact Or.inr hx
          · exact h x hx) hok
      · by_cases h3 : c = '}' ∨ c = ']'
        · simp only [bracketReplayOk, if_neg h1, if_neg h2, if_pos h3,
            Bool.and_eq_true, decide_eq_true_eq] at hok
          obtain ⟨hh, hok⟩ := hok
          cases st with
          | nil => simp at hh
          | cons t st' =>
            simp only [List.head?_cons, Option.some.injEq] at hh
            subst hh
            simp only [bracketReplay, bracketReplayOk, if_neg h1, if_neg h2, if_pos h3,
              List.head?_cons, if_pos rfl, List.tail_cons, List.cons_append,
              decide_eq_true_eq, Bool.true_and]
            exact ih st' (fun x hx => h x (List.mem_cons_of_mem _ hx)) (by simpa using hok)
        · simp only [bracketReplay, bracketReplayOk, if_neg h1, if_neg h2, if_neg h3,
            List.cons_append] at hok ⊢
          exact ih st h hok

theorem dropWhile_dropWhile (p : Char → Bool) (l : List Char) :
    (l.dropWhile p).dropWhile p = l.dropWhile p := by
  induction l with
  | nil => simp
  | cons a t ih =>
    by_cases hp : p a <;> simp [List.dropWhile_cons, hp, ih]

theorem head_false_of_dropWhile (p : Char → Bool) :
    ∀ (l : List Char) {hd : Char} {tl : List Char},
      l.dropWhile p = hd :: tl → p hd = false := by
  intro l
  induction l with
  | nil => intro hd tl h; simp at h
  | cons a t ih =>
    intro hd tl h
    rw [List.dropWhile_cons] at h
    by_cases hp : p a
    · rw [if_pos hp] at h
      exact ih h
    · rw [if_neg hp] at h
      cases h
      simpa using hp

theorem rstrip_prefix (p : Char → Bool) (l : List Char) :
    (l.reverse.dropWhile p).reverse <+: l := by
  obtain ⟨pre, hpre⟩ := List.dropWhile_suffix (l := l.reverse) (p := p)
  refine ⟨pre.reverse, ?_⟩
  have := congrArg List.reverse hpre
  simpa using this

theorem pyStrip_idem (s : List Char) : pyStrip (pyStrip s) = pyStrip s := by
  unfold pyStrip
  have claim3 : (((s.dropWhile pyWs).reverse.dropWhile pyWs).reverse).dropWhile pyWs
      = ((s.dropWhile pyWs).reverse.dropWhile pyWs).reverse := by
    cases hR : ((s.dropWhile pyWs).reverse.dropWhile pyWs).reverse with
    | nil => simp
    | cons b t =>
      have hpre : b :: t <+: s.dropWhile pyWs := hR ▸ rstrip_prefix pyWs (s.dropWhile pyWs)
      obtain ⟨rest, hrest⟩ := hpre
      have hb : pyWs b = false :=
        head_false_of_dropWhile pyWs s (by rw [← hrest]; rfl)
      rw [List.dropWhile_cons, if_neg (by simp [hb])]
  rw [claim3, List.reverse_reverse, dropWhile_dropWhile]

/-- C5 counterexample: `"\x7b\x7d..."` is bracket-balanced, yet the repair step
removes the trailing ellipsis, so the text is not returned unchanged
modulo edge whitespace. -/
theorem fix_balanced_counterexample :
    balancedCounts "\x7b\x7d...".data = true
    ∧ pyStrip "\x7b\x7d...".data = "\x7b\x7d...".data
    ∧ fix_incomplete_json "\x7b\x7d...".data = "\x7b\x7d".data
    ∧ fix_incomplete_json "\x7b\x7d...".data ≠ pyStrip "\x7b\x7d...".data := by
  refine ⟨by decide, by decide, by decide, by decide⟩

/-- C5 amended: on input whose stripped form has balanced bracket counts
the repair step returns the input with edge whitespace trimmed and a
trailing ellipsis (three or more dots) removed; when no trailing ellipsis
is present the text is returned exactly edge-trimmed, and the repair is
then idempotent on it. -/
theorem fix_balanced_amended (s : List Char)
    (h : balancedCounts (stripTrailingDots (pyStrip s)) = true) :
    fix_incomplete_json s = stripTrailingDots (pyStrip s)
    ∧ (stripTrailingDots (pyStrip s) = pyStrip s →
        fix_incomplete_json s = pyStrip s
        ∧ fix_incomplete_json (fix_incomplete_json s) = fix_incomplete_json s) := by
  have h1 : fix_incomplete_json s = stripTrailingDots (pyStrip s) := by
    unfold fix_incomplete_json
    rw [if_pos h]
  refine ⟨h1, fun hnd => ?_⟩
  have h2 : fix_incomplete_json s = pyStrip s := h1.trans hnd
  refine ⟨h2, ?_⟩
  rw [h2]
  unfold fix_incomplete_json
  rw [pyStrip_idem, hnd, if_pos (hnd ▸ h)]

theorem fix_balanced_amended_witness :
    fix_incomplete_json " \x7b\"a\": 1\x7d ".data
        = stripTrailingDots (pyStrip " \x7b\"a\": 1\x7d ".data)
      ∧ fix_incomplete_json " \x7b\"a\": 1\x7d ".data = pyStrip " \x7b\"a\": 1\x7d ".data
      ∧ fix_incomplete_json (fix_incomplete_json " \x7b\"a\": 1\x7d ".data)
        = fix_incomplete_json " \x7b\"a\": 1\x7d ".data := by
  have h := fix_balanced_amended " \x7b\"a\": 1\x7d ".data (by decide)
  exact ⟨h.1, (h.2 (by decide)).1, (h.2 (by decide)).2⟩

/-- C4 counterexample: on `"[\x7b]\x7b"` the brace surplus of the input is `2`,
but the repair first truncates to `"[{]"` (dropping an opener) and the
mismatched `]` is ignored by the stack replay, so the output `"[\x7b]\x7d]"`
contains a single `}` — not the two the claim requires — and the input is
not even a prefix of the output. -/
theorem fix_json_counterexample :
    countChar '{' "[\x7b]\x7b".data = 2
    ∧ countChar '}' "[\x7b]\x7b".data = 0
    ∧ fix_incomplete_json "[\x7b]\x7b".data = "[\x7b]\x7d]".data
    ∧ countChar '}' (fix_incomplete_json "[\x7b]\x7b".data) = 1
    ∧ ("[\x7b]\x7b".data.isPrefixOf (fix_incomplete_json "[\x7b]\x7b".data)) = false := by
  refine ⟨by decide, by decide, by decide, by decide, by decide⟩

/-- C4 amended: when the stripped input has unbalanced bracket counts, the
repair appends exactly the reversed remaining stack of the bracket replay
of the *truncated* text `t`; whenever that truncated text is prefix-valid
(every closer in it matches the innermost open bracket), the appended
closers number, per bracket type, exactly `t`'s opener surplus — the
output's closer counts equal `t`'s opener counts while its opener counts
are unchanged — and they arrive in correct innermost-first order: the
output replays to the empty stack. -/
theorem fix_json_amended (s : List Char)
    (h1 : balancedCounts (stripTrailingDots (pyStrip s)) = false)
    (h2 : bracketReplayOk []
      (truncate_to_valid_point (stripTrailingDots (pyStrip s))) = true) :
    fix_incomplete_json s
        = truncate_to_valid_point (stripTrailingDots (pyStrip s))
          ++ bracketReplay [] (truncate_to_valid_point (stripTrailingDots (pyStrip s)))
    ∧ countChar '}' (fix_incomplete_json s)
        = countChar '{' (truncate_to_valid_point (stripTrailingDots (pyStrip s)))
    ∧ countChar ']' (fix_incomplete_json s)
        = countChar '[' (truncate_to_valid_point (stripTrailingDots (pyStrip s)))
    ∧ countChar '{' (fix_incomplete_json s)
        = countChar '{' (truncate_to_valid_point (stripTrailingDots (pyStrip s)))
    ∧ countChar '[' (fix_incomplete_json s)
        = countChar '[' (truncate_to_valid_point (stripTrailingDots (pyStrip s)))
    ∧ balancedCounts (fix_incomplete_json s) = true
    ∧ bracketReplayOk [] (fix_incomplete_json s) = true
    ∧ bracketReplay [] (fix_incomplete_json s) = [] := by
  set t := truncate_to_valid_point (stripTrailingDots (pyStrip s)) with ht
  have hfix : fix_incomplete_json s = t ++ bracketReplay [] t := by
    unfold fix_incomplete_json
    rw [if_neg (by simp [h1])]
  have hcount := replay_count t [] h2
  have hclosers := replay_stack_closers t [] (by simp)
  have hnoOpen1 : (bracketReplay [] t).count '{' = 0 := by
    rw [List.count_eq_zero]
    intro hm
    rcases hclosers '{' hm with hc | hc <;> simp at hc
  have hnoOpen2 : (bracketReplay [] t).count '[' = 0 := by
    rw [List.count_eq_zero]
    intro hm
    rcases hclosers '[' hm with hc | hc <;> simp at hc
  have happ := replay_append t [] (by simp) h2
  have hc1 : countChar '}' (fix_incomplete_json s) = countChar '{' t := by
    rw [hfix]
    simp only [countChar, List.count_append]
    simp only [List.count_nil] at hcount
    omega
  have hc2 : countChar ']' (fix_incomplete_json s) = countChar '[' t := by
    rw [hfix]
    simp only [countChar, List.count_append]
    simp only [List.count_nil] at hcount
    omega
  have hc3 : countChar '{' (fix_incomplete_json s) = countChar '{' t := by
    rw [hfix]
    simp only [countChar, List.count_append, hnoOpen1]
    omega
  have hc4 : countChar '[' (fix_incomplete_json s) = countChar '[' t := by
    rw [hfix]
    simp only [countChar, List.count_append, hnoOpen2]
    omega
  refine ⟨hfix, hc1, hc2, hc3, hc4, ?_, ?_, ?_⟩
  · simp only [balancedCounts, Bool.and_eq_true, decide_eq_true_eq]
    exact ⟨by rw [hc1, hc3], by rw [hc2, hc4]⟩
  · rw [hfix]; exact happ.1
  · rw [hfix]; exact happ.2

theorem fix_json_amended_witness :
    fix_incomplete_json "[[".data = "[[]]".data
    ∧ countChar ']' (fix_incomplete_json "[[".data)
        = countChar '[' (truncate_to_valid_point (stripTrailingDots (pyStrip "[[".data)))
    ∧ bracketReplay [] (fix_incomplete_json "[[".data) = [] := by
  have h := fix_json_amended "[[".data (by decide) (by decide)
  exact ⟨by decide, h.2.2.1, h.2.2.2.2.2.2.2⟩

/-! ### C3: the fallback generator -/

/-- C3: `_create_fallback_plan` is a total function of the request
producing exactly `travel_days` days; day `i` is dated `start_date + i`
days, carries exactly two synthetic attractions, and exactly three meals
typed breakfast, lunch and dinner; the attraction coordinates are pairwise
distinct over all (day, attraction) index pairs. -/
theorem fallback_plan_spec (req : TripRequest) :
    (create_fallback_plan req).days.length = req.travel_days
    ∧ (∀ i, i < req.travel_days →
        (create_fallback_plan req).days[i]?.map DayPlan.date
            = some (formatDate (req.start_date + i))
        ∧ (create_fallback_plan req).days[i]?.map (fun d => d.attractions.length)
            = some 2
        ∧ (create_fallback_plan req).days[i]?.map (fun d => d.meals.map Meal.type)
            = some ["breakfast", "lunch", "dinner"])
    ∧ (∀ i i' j j', i < req.travel_days → i' < req.travel_days → j < 2 → j' < 2 →
        (i, j) ≠ (i', j') →
        ((create_fallback_plan req).days[i]?.bind (fun d => d.attractions[j]?)).map
            Attraction.location
          ≠ ((create_fallback_plan req).days[i']?.bind (fun d => d.attractions[j']?)).map
            Attraction.location) := by
  refine ⟨by simp [create_fallback_plan], ?_, ?_⟩
  · intro i hi
    have hgi := List.getElem?_range hi
    refine ⟨?_, ?_, ?_⟩ <;>
      · simp only [create_fallback_plan, List.getElem?_map, hgi]
        rfl
  · intro i i' j j' hi hi' hj hj' hne
    have hgi := List.getElem?_range hi
    have hgi' := List.getElem?_range hi'
    have hgj := List.getElem?_range hj
    have hgj' := List.getElem?_range hj'
    have h1 : ((create_fallback_plan req).days[i]?.bind (fun d => d.attractions[j]?)).map
        Attraction.location
        = some ⟨1164 / 10 + i * (1 / 100) + j * (1 / 200),
                399 / 10 + i * (1 / 100) + j * (1 / 200)⟩ := by
      simp [create_fallback_plan, hgi, hgj]
    have h2 : ((create_fallback_plan req).days[i']?.bind (fun d => d.attractions[j']?)).map
        Attraction.location
        = some ⟨1164 / 10 + i' * (1 / 100) + j' * (1 / 200),
                399 / 10 + i' * (1 / 100) + j' * (1 / 200)⟩ := by
      simp [create_fallback_plan, hgi', hgj']
    rw [h1, h2]
    intro heq
    apply hne
    have hlon := congrArg Location.longitude (Option.some.inj heq)
    simp only at hlon
    have hnat : 2 * i + j = 2 * i' + j' := by
      have hq : ((2 * i + j : ℕ) : ℚ) = ((2 * i' + j' : ℕ) : ℚ) := by
        push_cast
        linarith
      exact_mod_cast hq
    have h3 : i = i' ∧ j = j' := by omega
    simp [h3.1, h3.2]

theorem fallback_plan_spec_witness :
    (create_fallback_plan ⟨"北京", 19845, 19846, 2, "公共交通", "经济型酒店", []⟩).days.length = 2
    ∧ (create_fallback_plan
        ⟨"北京", 19845, 19846, 2, "公共交通", "经济型酒店", []⟩).days[1]?.map DayPlan.date
        = some (formatDate (19845 + 1))
    ∧ ((create_fallback_plan
          ⟨"北京", 19845, 19846, 2, "公共交通", "经济型酒店", []⟩).days[0]?.bind
            (fun d => d.attractions[0]?)).map Attraction.location
        ≠ ((create_fallback_plan
          ⟨"北京", 19845, 19846, 2, "公共交通", "经济型酒店", []⟩).days[0]?.bind
            (fun d => d.attractions[1]?)).map Attraction.location := by
  have h := fallback_plan_spec ⟨"北京", 19845, 19846, 2, "公共交通", "经济型酒店", []⟩
  exact ⟨h.1, (h.2.1 1 (by decide)).1,
    h.2.2 0 0 0 1 (by decide) (by decide) (by decide) (by decide) (by decide)⟩

/-! ### C6: idempotence of the field backfill -/

@[simp] theorem exceptBindOk {ε α β : Type} (a : α) (f : α → Except ε β) :
    (Except.ok a >>= f) = f a := rfl

@[simp] theorem exceptBindError {ε α β : Type} (e : ε) (f : α → Except ε β) :
    ((Except.error e : Except ε α) >>= f) = Except.error e := rfl

theorem setDefault_of_hasKey {f : List (String × Json)} {k : String} (v : Json)
    (h : pyHasKey f k = true) : setDefault f k v = f := by
  simp [setDefault, h]

theorem pyHasKey_append {β : Type} (f g : List (String × β)) (k : String) :
    pyHasKey (f ++ g) k = (pyHasKey f k || pyHasKey g k) := by
  simp [pyHasKey, List.any_append]

theorem pyHasKey_setDefault_self (f : List (String × Json)) (k : String) (v : Json) :
    pyHasKey (setDefault f k v) k = true := by
  unfold setDefault
  by_cases h : pyHasKey f k = true
  · simp [h]
  · rw [if_neg h, pyHasKey_append]
    simp [pyHasKey]

theorem pyHasKey_setDefault_mono {f : List (String × Json)} {k' : String}
    (k : String) (v : Json) (h : pyHasKey f k' = true) :
    pyHasKey (setDefault f k v) k' = true := by
  unfold setDefault
  by_cases hk : pyHasKey f k = true
  · simpa [hk]
  · rw [if_neg hk, pyHasKey_append, h]
    rfl

theorem pyHasKey_pySet_mono {β : Type} {f : List (String × β)} {k' : String}
    (k : String) (v : β) (h : pyHasKey f k' = true) :
    pyHasKey (pySet f k v) k' = true := by
  rw [pyHasKey_iff] at h ⊢
  rw [keys_pySet]
  by_cases hm : k ∈ keys f <;> simp [hm, h]

theorem pyGet_append_single_ne {β : Type} (f : List (String × β)) {k k' : String}
    (v : β) (h : k' ≠ k) : pyGet (f ++ [(k, v)]) k' = pyGet f k' := by
  simp only [pyGet, List.find?_append]
  rw [List.find?_cons_of_neg _ (by simpa using Ne.symm h)]
  simp

theorem pyGet_setDefault_ne {f : List (String × Json)} {k k' : String} (v : Json)
    (h : k' ≠ k) : pyGet (setDefault f k v) k' = pyGet f k' := by
  unfold setDefault
  by_cases hk : pyHasKey f k = true
  · simp [hk]
  · rw [if_neg hk, pyGet_append_single_ne f v h]

/-- Every binding of `k` in `pySet f k v` carries the value `v`. -/
theorem pySet_allKeyVal {β : Type} (f : List (String × β)) (k : String) (v : β) :
    ∀ kv ∈ pySet f k v, kv.1 = k → kv.2 = v := by
  intro kv hm hk
  unfold pySet at hm
  by_cases h : f.any (fun kv => kv.1 = k) = true
  · rw [if_pos h] at hm
    obtain ⟨kv₀, hm₀, he⟩ := List.mem_map.mp hm
    by_cases h₀ : kv₀.1 = k
    · rw [if_pos h₀] at he
      rw [← he]
    · rw [if_neg h₀] at he
      exact absurd (he ▸ hk) h₀
  · rw [if_neg h] at hm
    rcases List.mem_append.mp hm with hm | hm
    · exact absurd ((anyKey_iff f k).mpr (hk ▸ List.mem_map_of_mem Prod.fst hm))
        (by simpa using h)
    · simp only [List.mem_singleton] at hm
      rw [hm]

/-- Setting a key to the value every one of its bindings already carries is
the identity. -/
theorem pySet_of_allKeyVal {β : Type} {f : List (String × β)} {k : String} {v : β}
    (h : ∀ kv ∈ f, kv.1 = k → kv.2 = v) (hk : pyHasKey f k = true) :
    pySet f k v = f := by
  unfold pySet
  unfold pyHasKey at hk
  rw [if_pos hk]
  have hall : ∀ kv ∈ f, (if kv.1 = k then (k, v) else kv) = kv := by
    intro kv hm
    by_cases hkv : kv.1 = k
    · rw [if_pos hkv, ← hkv, ← h kv hm hkv]
    · rw [if_neg hkv]
  exact (List.map_congr_left hall).trans (List.map_id f)

theorem allKeyVal_setDefault {f : List (String × Json)} {k : String} {v : Json}
    (k' : String) (v' : Json) (hne : k ≠ k')
    (h : ∀ kv ∈ f, kv.1 = k → kv.2 = v) :
    ∀ kv ∈ setDefault f k' v', kv.1 = k → kv.2 = v := by
  intro kv hm hk
  unfold setDefault at hm
  by_cases hp : pyHasKey f k' = true
  · rw [if_pos hp] at hm
    exact h kv hm hk
  · rw [if_neg hp] at hm
    rcases List.mem_append.mp hm with hm | hm
    · exact h kv hm hk
    · simp only [List.mem_singleton] at hm
      rw [hm] at hk
      exact absurd hk.symm hne

theorem daySetDefault_obj (f : List (String × Json)) (k : String) (v : Json) :
    daySetDefault (.obj f) k v = .ok (.obj (setDefault f k v)) := by
  by_cases hp : pyHasKey f k = true
  · simp [daySetDefault, dayHasKey, dayHasKeyB, setDefault, hp]
  · simp [daySetDefault, dayHasKey, dayHasKeyB, setDefault, hp]

theorem daySetDefault_str (s : String) (k : String) (v : Json) :
    daySetDefault (.str s) k v
      = if dayHasKeyB (.str s) k then .ok (.str s)
        else .error "TypeError: item assignment" := by
  by_cases hp : dayHasKeyB (.str s) k = true <;>
    simp [daySetDefault, dayHasKey, hp]

theorem daySetDefault_arr (l : List Json) (k : String) (v : Json) :
    daySetDefault (.arr l) k v
      = if dayHasKeyB (.arr l) k then .ok (.arr l)
        else .error "TypeError: item assignment" := by
  by_cases hp : dayHasKeyB (.arr l) k = true <;>
    simp [daySetDefault, dayHasKey, hp]

/-- A successful `daySetDefault` makes the key present and preserves every
present key. -/
theorem daySetDefault_keys {d d' : Json} {k : String} {v : Json}
    (h : daySetDefault d k v = .ok d') :
    dayHasKeyB d' k = true ∧ ∀ k', dayHasKeyB d k' = true → dayHasKeyB d' k' = true := by
  cases d with
  | obj f =>
    rw [daySetDefault_obj] at h
    cases h
    constructor
    · simpa [dayHasKeyB] using pyHasKey_setDefault_self f k v
    · intro k' hk'
      simpa [dayHasKeyB] using
        pyHasKey_setDefault_mono k v (by simpa [dayHasKeyB] using hk')
  | str s =>
    rw [daySetDefault_str] at h
    by_cases hp : dayHasKeyB (.str s) k = true
    · rw [if_pos hp] at h
      cases h
      exact ⟨hp, fun _ h => h⟩
    · rw [if_neg (by simpa using hp)] at h
      simp at h
  | arr l =>
    rw [daySetDefault_arr] at h
    by_cases hp : dayHasKeyB (.arr l) k = true
    · rw [if_pos hp] at h
      cases h
      exact ⟨hp, fun _ h => h⟩
    · rw [if_neg (by simpa using hp)] at h
      simp at h
  | null => simp [daySetDefault, dayHasKey] at h
  | bool b => simp [daySetDefault, dayHasKey] at h
  | num q => simp [daySetDefault, dayHasKey] at h

/-- `daySetDefault` is the identity on an entry that already has the key. -/
theorem daySetDefault_of_hasKey {d : Json} {k : String} (v : Json)
    (h : dayHasKeyB d k = true) : daySetDefault d k v = .ok d := by
  cases d with
  | obj f =>
    rw [daySetDefault_obj, setDefault_of_hasKey v (by simpa [dayHasKeyB] using h)]
  | str s => rw [daySetDefault_str, if_pos h]
  | arr l => rw [daySetDefault_arr, if_pos h]
  | null => simp [dayHasKeyB] at h
  | bool b => simp [dayHasKeyB] at h
  | num q => simp [dayHasKeyB] at h

/-- A successful field chain ends with all its keys present, preserving the
ones already there. -/
theorem backfillFields_keys : ∀ (fs : List (String × Json)) (d d' : Json),
    backfillFields d fs = .ok d' →
    (∀ kv ∈ fs, dayHasKeyB d' kv.1 = true)
    ∧ (∀ k', dayHasKeyB d k' = true → dayHasKeyB d' k' = true) := by
  intro fs
  induction fs with
  | nil =>
    intro d d' h
    simp only [backfillFields, Except.ok.injEq] at h
    subst h
    exact ⟨by simp, fun _ h => h⟩
  | cons kv rest ih =>
    intro d d' h
    simp only [backfillFields] at h
    cases hstep : daySetDefault d kv.1 kv.2 with
    | error e => rw [hstep] at h; simp at h
    | ok dmid =>
      rw [hstep] at h
      simp only [exceptBindOk] at h
      obtain ⟨hk, hmono⟩ := daySetDefault_keys hstep
      obtain ⟨hall, hmono'⟩ := ih dmid d' h
      refine ⟨?_, fun k' hk' => hmono' k' (hmono k' hk')⟩
      intro kv' hm
      rcases List.mem_cons.mp hm with hm | hm
      · exact hm ▸ hmono' kv.1 hk
      · exact hall kv' hm

/-- A field chain over an entry that already has every key is the
identity. -/
theorem backfillFields_of_keys : ∀ (fs : List (String × Json)) (d : Json),
    (∀ kv ∈ fs, dayHasKeyB d kv.1 = true) → backfillFields d fs = .ok d := by
  intro fs
  induction fs with
  | nil => intro d _; rfl
  | cons kv rest ih =>
    intro d h
    simp only [backfillFields]
    rw [daySetDefault_of_hasKey kv.2 (h kv (by simp))]
    simp only [exceptBindOk]
    exact ih d (fun kv' hm => h kv' (List.mem_cons_of_mem kv hm))

theorem dayFields_names (req : TripRequest) (i : Nat) :
    (dayFields req i).map Prod.fst = dayKeyNames := rfl

/-- A successful per-day backfill yields an entry with all seven keys. -/
theorem backfillDay_keys {req : TripRequest} {i : Nat} {d d' : Json}
    (h : backfillDay req i d = .ok d') : dayKeysOkB d' = true := by
  obtain ⟨hall, -⟩ := backfillFields_keys (dayFields req i) d d' h
  simp only [dayKeysOkB, List.all_eq_true]
  intro k hk
  rw [← dayFields_names req i] at hk
  obtain ⟨kv, hm, he⟩ := List.mem_map.mp hk
  exact he ▸ hall kv hm

/-- The per-day backfill is the identity on a key-complete entry. -/
theorem backfillDay_of_keys {req : TripRequest} (i : Nat) {d : Json}
    (h : dayKeysOkB d = true) : backfillDay req i d = .ok d := by
  apply backfillFields_of_keys
  intro kv hm
  simp only [dayKeysOkB, List.all_eq_true] at h
  exact h kv.1 (by rw [← dayFields_names req i]; exact List.mem_map_of_mem Prod.fst hm)

/-- A successful day-list backfill preserves length and yields key-complete
entries. -/
theorem backfillDays_ok : ∀ (ds : List Json) (i : Nat) (ds' : List Json)
    {req : TripRequest}, backfillDays req ds i = .ok ds' →
    ds'.length = ds.length ∧ ∀ d ∈ ds', dayKeysOkB d = true := by
  intro ds
  induction ds with
  | nil =>
    intro i ds' req h
    simp only [backfillDays, Except.ok.injEq] at h
    subst h
    simp
  | cons d rest ih =>
    intro i ds' req h
    simp only [backfillDays] at h
    cases hd : backfillDay req i d with
    | error e => rw [hd] at h; simp at h
    | ok d₁ =>
      rw [hd] at h
      simp only [exceptBindOk] at h
      cases hr : backfillDays req rest (i + 1) with
      | error e => rw [hr] at h; simp at h
      | ok rest₁ =>
        rw [hr] at h
        simp only [exceptBindOk, Except.ok.injEq] at h
        subst h
        obtain ⟨hlen, hall⟩ := ih (i + 1) rest₁ hr
        refine ⟨by simp [hlen], ?_⟩
        intro x hx
        rcases List.mem_cons.mp hx with hx | hx
        · exact hx ▸ backfillDay_keys hd
        · exact hall x hx

/-- The day-list backfill is the identity on key-complete entries. -/
theorem backfillDays_of_keys : ∀ (ds : List Json) (i : Nat) {req : TripRequest},
    (∀ d ∈ ds, dayKeysOkB d = true) → backfillDays req ds i = .ok ds := by
  intro ds
  induction ds with
  | nil => intro i req _; rfl
  | cons d rest ih =>
    intro i req h
    simp only [backfillDays]
    rw [backfillDay_of_keys i (h d (by simp))]
    simp only [exceptBindOk]
    rw [ih (i + 1) (fun x hx => h x (List.mem_cons_of_mem d hx))]
    rfl

/-- A synthesized padding day has all seven keys. -/
theorem synthDay_keys (req : TripRequest) (idx : Nat) :
    dayKeysOkB (synthDay req idx) = true := by
  simp [dayKeysOkB, dayKeyNames, synthDay, dayHasKeyB, dayFields, pyHasKey]

theorem padDays_length (req : TripRequest) (ds : List Json) :
    (padDays req ds).length = ds.length + (req.travel_days - ds.length) := by
  simp [padDays]

theorem padDays_of_long {req : TripRequest} {ds : List Json}
    (h : req.travel_days ≤ ds.length) : padDays req ds = ds := by
  unfold padDays
  rw [List.drop_eq_nil_of_le (by simpa using h)]
  simp

/-- Completeness of a parsed structure: all top-level required fields
present, the day array at least `travel_days` long with every entry
carrying the seven per-day keys (every binding of `"days"` holding that
same array — Python dicts cannot tell duplicate keys apart). -/
def Complete (req : TripRequest) (j : Json) : Prop :=
  match j with
  | .obj fs =>
    pyHasKey fs "city" = true ∧ pyHasKey fs "start_date" = true
    ∧ pyHasKey fs "end_date" = true ∧ pyHasKey fs "overall_suggestions" = true
    ∧ pyHasKey fs "weather_info" = true
    ∧ ∃ ds, pyGet fs "days" = some (.arr ds)
        ∧ req.travel_days ≤ ds.length
        ∧ (∀ d ∈ ds, dayKeysOkB d = true)
        ∧ (∀ kv ∈ fs, kv.1 = "days" → kv.2 = .arr ds)
  | _ => False

theorem pyHasKey_of_pyGet {β : Type} {f : List (String × β)} {k : String} {v : β}
    (h : pyGet f k = some v) : pyHasKey f k = true := by
  unfold pyGet at h
  cases hf : f.find? (fun kv => kv.1 = k) with
  | none => rw [hf] at h; simp at h
  | some kv =>
    have hm := List.mem_of_find?_eq_some hf
    have hp := List.find?_some hf
    simp only [decide_eq_true_eq] at hp
    exact (anyKey_iff f k).mpr (hp ▸ List.mem_map_of_mem Prod.fst hm)

theorem ensureDays_eq_ok {req : TripRequest} (fs : List (String × Json))
    {ds ds' : List Json} (hb : backfillDays req (padDays req ds) 0 = .ok ds') :
    ensureDays req fs ds
      = .ok (.obj (setDefault (pySet fs "days" (.arr ds')) "weather_info"
          (.arr []))) := by
  unfold ensureDays
  rw [hb]

theorem ensureWithDays_eq_none {req : TripRequest} {fs : List (String × Json)}
    (hget : pyGet fs "days" = none) :
    ensureWithDays req fs = ensureDays req (pySet fs "days" (.arr [])) [] := by
  unfold ensureWithDays
  rw [hget]

theorem ensureWithDays_of_arr {req : TripRequest} {fs : List (String × Json)}
    {ds : List Json} (hget : pyGet fs "days" = some (.arr ds)) (hne : ds ≠ []) :
    ensureWithDays req fs = ensureDays req fs ds := by
  unfold ensureWithDays
  rw [hget]
  show (if pyTruthy (.arr ds) = true then ensureDays req fs ds
        else ensureDays req (pySet fs "days" (.arr [])) []) = ensureDays req fs ds
  rw [if_pos (by simpa [pyTruthy] using hne)]

theorem ensureWithDays_of_arr_nil {req : TripRequest} {fs : List (String × Json)}
    (hget : pyGet fs "days" = some (.arr [])) :
    ensureWithDays req fs = ensureDays req (pySet fs "days" (.arr [])) [] := by
  unfold ensureWithDays
  rw [hget]
  show (if pyTruthy (.arr ([] : List Json)) = true then ensureDays req fs []
        else ensureDays req (pySet fs "days" (.arr [])) [])
      = ensureDays req (pySet fs "days" (.arr [])) []
  rw [if_neg (by simp [pyTruthy])]

/-- Inversion for a successful `ensureWithDays`. -/
theorem ensureWithDays_cases {req : TripRequest} {fs : List (String × Json)}
    {j : Json} (h : ensureWithDays req fs = .ok j) :
    (∃ ds, pyGet fs "days" = some (.arr ds) ∧ ensureDays req fs ds = .ok j)
    ∨ ensureDays req (pySet fs "days" (.arr [])) [] = .ok j := by
  unfold ensureWithDays at h
  split at h
  · exact Or.inr h
  · rename_i v heq
    split at h
    · split at h
      · exact Or.inl ⟨_, heq, h⟩
      · simp at h
    · exact Or.inr h

/-- `ensureDays` on a dict that already satisfies `Complete`'s day data is
the identity. -/
theorem ensureDays_stable {req : TripRequest} {fs : List (String × Json)}
    {ds : List Json}
    (hget : pyGet fs "days" = some (.arr ds))
    (hw : pyHasKey fs "weather_info" = true)
    (hlen : req.travel_days ≤ ds.length)
    (hall : ∀ d ∈ ds, dayKeysOkB d = true)
    (hkv : ∀ kv ∈ fs, kv.1 = "days" → kv.2 = .arr ds) :
    ensureDays req fs ds = .ok (.obj fs) := by
  rw [ensureDays_eq_ok fs
    (by rw [padDays_of_long hlen]; exact backfillDays_of_keys ds 0 hall)]
  rw [pySet_of_allKeyVal hkv (pyHasKey_of_pyGet hget), setDefault_of_hasKey _ hw]

/-- A successful `ensureDays` yields a `Complete` structure, given the four
backfilled top-level keys in its argument dict. -/
theorem ensureDays_complete {req : TripRequest} {fs : List (String × Json)}
    {ds : List Json} {j : Json}
    (h : ensureDays req fs ds = .ok j)
    (hc : pyHasKey fs "city" = true) (hs : pyHasKey fs "start_date" = true)
    (he : pyHasKey fs "end_date" = true)
    (ho : pyHasKey fs "overall_suggestions" = true) :
    Complete req j := by
  cases hb : backfillDays req (padDays req ds) 0 with
  | error e =>
    rw [show ensureDays req fs ds = .error e from by unfold ensureDays; rw [hb]] at h
    exact absurd h (by simp)
  | ok ds' =>
    rw [ensureDays_eq_ok fs hb] at h
    simp only [Except.ok.injEq] at h
    subst h
    obtain ⟨hlen', hall'⟩ := backfillDays_ok _ 0 ds' hb
    have hlen : req.travel_days ≤ ds'.length := by
      rw [hlen', padDays_length]
      omega
    refine ⟨?_, ?_, ?_, ?_, ?_, ds', ?_, hlen, hall', ?_⟩
    · exact pyHasKey_setDefault_mono _ _ (pyHasKey_pySet_mono _ _ hc)
    · exact pyHasKey_setDefault_mono _ _ (pyHasKey_pySet_mono _ _ hs)
    · exact pyHasKey_setDefault_mono _ _ (pyHasKey_pySet_mono _ _ he)
    · exact pyHasKey_setDefault_mono _ _ (pyHasKey_pySet_mono _ _ ho)
    · exact pyHasKey_setDefault_self _ _ _
    · rw [pyGet_setDefault_ne _ (by decide), pyGet_pySet_self]
    · exact allKeyVal_setDefault _ _ (by decide)
        (pySet_allKeyVal fs "days" (.arr ds'))

/-- Completeness of every successful `_ensure_required_fields` output. -/
theorem ensure_complete {req : TripRequest} {d j : Json}
    (h : ensure_required_fields d req = .ok j) : Complete req j := by
  cases d with
  | obj fs0 =>
    simp only [ensure_required_fields] at h
    have hc : pyHasKey (ensureTop req fs0) "city" = true := by
      unfold ensureTop
      exact pyHasKey_setDefault_mono _ _ (pyHasKey_setDefault_mono _ _
        (pyHasKey_setDefault_mono _ _ (pyHasKey_setDefault_self _ _ _)))
    have hs : pyHasKey (ensureTop req fs0) "start_date" = true := by
      unfold ensureTop
      exact pyHasKey_setDefault_mono _ _ (pyHasKey_setDefault_mono _ _
        (pyHasKey_setDefault_self _ _ _))
    have he : pyHasKey (ensureTop req fs0) "end_date" = true := by
      unfold ensureTop
      exact pyHasKey_setDefault_mono _ _ (pyHasKey_setDefault_self _ _ _)
    have ho : pyHasKey (ensureTop req fs0) "overall_suggestions" = true := by
      unfold ensureTop
      exact pyHasKey_setDefault_self _ _ _
    rcases ensureWithDays_cases h with ⟨ds, -, h2⟩ | h2
    · exact ensureDays_complete h2 hc hs he ho
    · exact ensureDays_complete h2 (pyHasKey_pySet_mono _ _ hc)
        (pyHasKey_pySet_mono _ _ hs) (pyHasKey_pySet_mono _ _ he)
        (pyHasKey_pySet_mono _ _ ho)
  | null => simp [ensure_required_fields] at h
  | bool b => simp [ensure_required_fields] at h
  | num q => simp [ensure_required_fields] at h
  | str s => simp [ensure_required_fields] at h
  | arr l => simp [ensure_required_fields] at h

/-- `_ensure_required_fields` is the identity on `Complete` structures. -/
theorem ensure_stable {req : TripRequest} {d : Json}
    (h : Complete req d) : ensure_required_fields d req = .ok d := by
  cases d with
  | obj fs =>
    obtain ⟨hc, hs, he, ho, hw, ds, hget, hlen, hall, hkv⟩ := h
    have htop : ensureTop req fs = fs := by
      unfold ensureTop
      rw [setDefault_of_hasKey _ hc, setDefault_of_hasKey _ hs,
        setDefault_of_hasKey _ he, setDefault_of_hasKey _ ho]
    simp only [ensure_required_fields, htop]
    cases hds : ds with
    | nil =>
      rw [hds] at hget hkv
      rw [ensureWithDays_of_arr_nil hget,
        pySet_of_allKeyVal hkv (pyHasKey_of_pyGet hget)]
      exact ensureDays_stable hget hw (hds ▸ hlen) (by simp) hkv
    | cons x t =>
      rw [ensureWithDays_of_arr hget (by rw [hds]; simp)]
      exact ensureDays_stable hget hw hlen hall hkv
  | null => exact absurd h (by simp [Complete])
  | bool b => exact absurd h (by simp [Complete])
  | num q => exact absurd h (by simp [Complete])
  | str s => exact absurd h (by simp [Complete])
  | arr l => exact absurd h (by simp [Complete])

/-- C6: field backfill is idempotent — running
`_ensure_required_fields` on its own successful output changes nothing
(composition in the `Except` monad equals a single run), and on an
already-complete structure a single run is the identity. -/
theorem ensure_idempotent (req : TripRequest) (d : Json) :
    (ensure_required_fields d req).bind (fun d' => ensure_required_fields d' req)
      = ensure_required_fields d req
    ∧ (Complete req d → ensure_required_fields d req = .ok d) := by
  constructor
  · cases h : ensure_required_fields d req with
    | error e => rfl
    | ok d' =>
      show ensure_required_fields d' req = Except.ok d'
      exact ensure_stable (ensure_complete h)
  · exact ensure_stable

theorem ensure_idempotent_witness :
    (ensure_required_fields
        (.obj [("city", .str "北京"), ("days", .arr [synthDay
          ⟨"北京", 19845, 19846, 1, "公共交通", "酒店", []⟩ 0]),
          ("start_date", .str "2024-05-02"), ("end_date", .str "2024-05-03"),
          ("overall_suggestions", .str "玩得开心"), ("weather_info", .arr [])])
        ⟨"北京", 19845, 19846, 1, "公共交通", "酒店", []⟩).bind
        (fun d' => ensure_required_fields d'
          ⟨"北京", 19845, 19846, 1, "公共交通", "酒店", []⟩)
      = ensure_required_fields
        (.obj [("city", .str "北京"), ("days", .arr [synthDay
          ⟨"北京", 19845, 19846, 1, "公共交通", "酒店", []⟩ 0]),
          ("start_date", .str "2024-05-02"), ("end_date", .str "2024-05-03"),
          ("overall_suggestions", .str "玩得开心"), ("weather_info", .arr [])])
        ⟨"北京", 19845, 19846, 1, "公共交通", "酒店", []⟩
    ∧ ensure_required_fields
        (.obj [("city", .str "北京"), ("days", .arr [synthDay
          ⟨"北京", 19845, 19846, 1, "公共交通", "酒店", []⟩ 0]),
          ("start_date", .str "2024-05-02"), ("end_date", .str "2024-05-03"),
          ("overall_suggestions", .str "玩得开心"), ("weather_info", .arr [])])
        ⟨"北京", 19845, 19846, 1, "公共交通", "酒店", []⟩
      = .ok (.obj [("city", .str "北京"), ("days", .arr [synthDay
          ⟨"北京", 19845, 19846, 1, "公共交通", "酒店", []⟩ 0]),
          ("start_date", .str "2024-05-02"), ("end_date", .str "2024-05-03"),
          ("overall_suggestions", .str "玩得开心"), ("weather_info", .arr [])]) := by
  have hcomp : Complete ⟨"北京", 19845, 19846, 1, "公共交通", "酒店", []⟩
      (.obj [("city", .str "北京"), ("days", .arr [synthDay
        ⟨"北京", 19845, 19846, 1, "公共交通", "酒店", []⟩ 0]),
        ("start_date", .str "2024-05-02"), ("end_date", .str "2024-05-03"),
        ("overall_suggestions", .str "玩得开心"), ("weather_info", .arr [])]) := by
    refine ⟨rfl, rfl, rfl, rfl, rfl,
      [synthDay ⟨"北京", 19845, 19846, 1, "公共交通", "酒店", []⟩ 0], rfl,
      by decide, ?_, ?_⟩
    · intro d hm
      rw [List.mem_singleton] at hm
      subst hm
      exact synthDay_keys _ 0
    · intro kv hm hk
      simp only [List.mem_cons] at hm
      rcases hm with h | h | h | h | h | h | h <;>
        first
          | (subst h; rfl)
          | (subst h; simp at hk)
          | simp at h
  have h := ensure_idempotent ⟨"北京", 19845, 19846, 1, "公共交通", "酒店", []⟩
    (.obj [("city", .str "北京"), ("days", .arr [synthDay
      ⟨"北京", 19845, 19846, 1, "公共交通", "酒店", []⟩ 0]),
      ("start_date", .str "2024-05-02"), ("end_date", .str "2024-05-03"),
      ("overall_suggestions", .str "玩得开心"), ("weather_info", .arr [])])
  exact ⟨h.1, h.2 hcomp⟩

/-! ### C1 and C2: the `plan_trip` pipeline -/

theorem mapE_length {α β : Type} {f : α → Except String β} :
    ∀ {l : List α} {l' : List β}, mapE f l = .ok l' → l'.length = l.length := by
  intro l
  induction l with
  | nil =>
    intro l' h
    simp only [mapE, Except.ok.injEq] at h
    subst h
    rfl
  | cons x xs ih =>
    intro l' h
    simp only [mapE] at h
    cases h1 : f x with
    | error e => rw [h1] at h; simp at h
    | ok y =>
      rw [h1] at h
      simp only [exceptBindOk] at h
      cases h2 : mapE f xs with
      | error e => rw [h2] at h; simp at h
      | ok ys =>
        rw [h2] at h
        simp only [exceptBindOk, Except.ok.injEq] at h
        subst h
        simp [ih h2]

theorem mapE_mem {α β : Type} {f : α → Except String β} :
    ∀ {l : List α} {l' : List β}, mapE f l = .ok l' →
      ∀ y ∈ l', ∃ x ∈ l, f x = .ok y := by
  intro l
  induction l with
  | nil =>
    intro l' h
    simp only [mapE, Except.ok.injEq] at h
    subst h
    simp
  | cons x xs ih =>
    intro l' h
    simp only [mapE] at h
    cases h1 : f x with
    | error e => rw [h1] at h; simp at h
    | ok y =>
      rw [h1] at h
      simp only [exceptBindOk] at h
      cases h2 : mapE f xs with
      | error e => rw [h2] at h; simp at h
      | ok ys =>
        rw [h2] at h
        simp only [exceptBindOk, Except.ok.injEq] at h
        subst h
        intro z hz
        rcases List.mem_cons.mp hz with hz | hz
        · exact ⟨x, by simp, hz ▸ h1⟩
        · obtain ⟨x', hx', hf⟩ := ih h2 z hz
          exact ⟨x', List.mem_cons_of_mem x hx', hf⟩

theorem asObj_inv {j : Json} {f : List (String × Json)} (h : asObj j = .ok f) :
    j = .obj f := by
  cases j <;> simp_all [asObj]

theorem reqField_inv {f : List (String × Json)} {k : String} {v : Json}
    (h : reqField f k = .ok v) : pyGet f k = some v := by
  unfold reqField at h
  cases hg : pyGet f k with
  | none => rw [hg] at h; simp at h
  | some v' => rw [hg] at h; simp_all

theorem asArr_inv {j : Json} {l : List Json} (h : asArr j = .ok l) :
    j = .arr l := by
  cases j <;> simp_all [asArr]

/-- Every meal a successful `mealOfJson` admits carries an enum type. -/
theorem mealOfJson_type {j : Json} {m : Meal} (h : mealOfJson j = .ok m) :
    m.type = "breakfast" ∨ m.type = "lunch" ∨ m.type = "dinner" := by
  unfold mealOfJson at h
  cases h1 : asObj j with
  | error e => rw [h1] at h; simp at h
  | ok f =>
    rw [h1] at h
    simp only [exceptBindOk] at h
    cases h2 : reqField f "type" with
    | error e => rw [h2] at h; simp at h
    | ok vt =>
      rw [h2] at h
      simp only [exceptBindOk] at h
      cases h3 : asStr vt with
      | error e => rw [h3] at h; simp at h
      | ok t =>
        rw [h3] at h
        simp only [exceptBindOk] at h
        by_cases hc : t = "breakfast" ∨ t = "lunch" ∨ t = "dinner"
        · rw [if_pos hc] at h
          cases h4 : reqField f "name" with
          | error e => rw [h4] at h; simp at h
          | ok vn =>
            rw [h4] at h
            simp only [exceptBindOk] at h
            cases h5 : asStr vn with
            | error e => rw [h5] at h; simp at h
            | ok name =>
              rw [h5] at h
              simp only [exceptBindOk] at h
              cases h6 : reqField f "description" with
              | error e => rw [h6] at h; simp at h
              | ok vd =>
                rw [h6] at h
                simp only [exceptBindOk] at h
                cases h7 : asStr vd with
                | error e => rw [h7] at h; simp at h
                | ok descr =>
                  rw [h7] at h
                  simp only [exceptBindOk, Except.ok.injEq] at h
                  subst h
                  exact hc
        · rw [if_neg hc] at h
          simp at h

/-- A successful `dayPlanOfJson` draws its meals from `mapE mealOfJson`. -/
theorem dayPlanOfJson_meals {j : Json} {d : DayPlan}
    (h : dayPlanOfJson j = .ok d) :
    ∃ ml, mapE mealOfJson ml = .ok d.meals := by
  unfold dayPlanOfJson at h
  cases h1 : asObj j with
  | error e => rw [h1] at h; simp at h
  | ok f =>
    rw [h1] at h
    simp only [exceptBindOk] at h
    cases h2 : reqField f "date" with
    | error e => rw [h2] at h; simp at h
    | ok vdate =>
      rw [h2] at h
      simp only [exceptBindOk] at h
      cases h3 : asStr vdate with
      | error e => rw [h3] at h; simp at h
      | ok date =>
        rw [h3] at h
        simp only [exceptBindOk] at h
        cases h4 : reqField f "day_index" with
        | error e => rw [h4] at h; simp at h
        | ok vidx =>
          rw [h4] at h
          simp only [exceptBindOk] at h
          cases h5 : asNum vidx with
          | error e => rw [h5] at h; simp at h
          | ok idx =>
            rw [h5] at h
            simp only [exceptBindOk] at h
            cases h6 : reqField f "description" with
            | error e => rw [h6] at h; simp at h
            | ok vdesc =>
              rw [h6] at h
              simp only [exceptBindOk] at h
              cases h7 : asStr vdesc with
              | error e => rw [h7] at h; simp at h
              | ok descr =>
                rw [h7] at h
                simp only [exceptBindOk] at h
                cases h8 : reqField f "transportation" with
                | error e => rw [h8] at h; simp at h
                | ok vtr =>
                  rw [h8] at h
                  simp only [exceptBindOk] at h
                  cases h9 : asStr vtr with
                  | error e => rw [h9] at h; simp at h
                  | ok tr =>
                    rw [h9] at h
                    simp only [exceptBindOk] at h
                    cases h10 : reqField f "accommodation" with
                    | error e => rw [h10] at h; simp at h
                    | ok vac =>
                      rw [h10] at h
                      simp only [exceptBindOk] at h
                      cases h11 : asStr vac with
                      | error e => rw [h11] at h; simp at h
                      | ok ac =>
                        rw [h11] at h
                        simp only [exceptBindOk] at h
                        cases h12 : reqField f "attractions" with
                        | error e => rw [h12] at h; simp at h
                        | ok vatt =>
                          rw [h12] at h
                          simp only [exceptBindOk] at h
                          cases h13 : asArr vatt with
                          | error e => rw [h13] at h; simp at h
                          | ok latt =>
                            rw [h13] at h
                            simp only [exceptBindOk] at h
                            cases h14 : mapE attractionOfJson latt with
                            | error e => rw [h14] at h; simp at h
                            | ok atts =>
                              rw [h14] at h
                              simp only [exceptBindOk] at h
                              cases h15 : reqField f "meals" with
                              | error e => rw [h15] at h; simp at h
                              | ok vml =>
                                rw [h15] at h
                                simp only [exceptBindOk] at h
                                cases h16 : asArr vml with
                                | error e => rw [h16] at h; simp at h
                                | ok lml =>
                                  rw [h16] at h
                                  simp only [exceptBindOk] at h
                                  cases h17 : mapE mealOfJson lml with
                                  | error e => rw [h17] at h; simp at h
                                  | ok meals =>
                                    rw [h17] at h
                                    simp only [exceptBindOk, Except.ok.injEq] at h
                                    subst h
                                    exact ⟨lml, h17⟩

/-- Inversion of a successful `tripPlanOfJson`: the input is a dict whose
`days` array validates element-wise into the plan's day list. -/
theorem tripPlanOfJson_inv {j : Json} {p : TripPlan}
    (h : tripPlanOfJson j = .ok p) :
    ∃ fs ds, j = .obj fs ∧ pyGet fs "days" = some (.arr ds)
      ∧ mapE dayPlanOfJson ds = .ok p.days := by
  unfold tripPlanOfJson at h
  cases h1 : asObj j with
  | error e => rw [h1] at h; simp at h
  | ok f =>
    rw [h1] at h
    simp only [exceptBindOk] at h
    cases h2 : reqField f "city" with
    | error e => rw [h2] at h; simp at h
    | ok vc =>
      rw [h2] at h
      simp only [exceptBindOk] at h
      cases h3 : asStr vc with
      | error e => rw [h3] at h; simp at h
      | ok city =>
        rw [h3] at h
        simp only [exceptBindOk] at h
        cases h4 : reqField f "start_date" with
        | error e => rw [h4] at h; simp at h
        | ok vsd =>
          rw [h4] at h
          simp only [exceptBindOk] at h
          cases h5 : asStr vsd with
          | error e => rw [h5] at h; simp at h
          | ok sd =>
            rw [h5] at h
            simp only [exceptBindOk] at h
            cases h6 : reqField f "end_date" with
            | error e => rw [h6] at h; simp at h
            | ok ved =>
              rw [h6] at h
              simp only [exceptBindOk] at h
              cases h7 : asStr ved with
              | error e => rw [h7] at h; simp at h
              | ok ed =>
                rw [h7] at h
                simp only [exceptBindOk] at h
                cases h8 : reqField f "days" with
                | error e => rw [h8] at h; simp at h
                | ok vds =>
                  rw [h8] at h
                  simp only [exceptBindOk] at h
                  cases h9 : asArr vds with
                  | error e => rw [h9] at h; simp at h
                  | ok ds =>
                    rw [h9] at h
                    simp only [exceptBindOk] at h
                    cases h10 : mapE dayPlanOfJson ds with
                    | error e => rw [h10] at h; simp at h
                    | ok days =>
                      rw [h10] at h
                      simp only [exceptBindOk] at h
                      cases h11 : reqField f "weather_info" with
                      | error e => rw [h11] at h; simp at h
                      | ok vw =>
                        rw [h11] at h
                        simp only [exceptBindOk] at h
                        cases h12 : asArr vw with
                        | error e => rw [h12] at h; simp at h
                        | ok w =>
                          rw [h12] at h
                          simp only [exceptBindOk] at h
                          cases h13 : reqField f "overall_suggestions" with
                          | error e => rw [h13] at h; simp at h
                          | ok vos =>
                            rw [h13] at h
                            simp only [exceptBindOk] at h
                            cases h14 : asStr vos with
                            | error e => rw [h14] at h; simp at h
                            | ok os =>
                              rw [h14] at h
                              simp only [exceptBindOk, Except.ok.injEq] at h
                              subst h
                              refine ⟨f, ds, asObj_inv h1, ?_, h10⟩
                              rw [← asArr_inv h9]
                              exact reqField_inv h8

/-- Inversion of a successful `parse_attempt`: extraction, repair, parse,
backfill and construction all succeeded in sequence. -/
theorem parse_attempt_inv {resp : String} {req : TripRequest} {p : TripPlan}
    (h : parse_attempt resp req = .ok p) :
    ∃ d d', jsonLoads (fix_incomplete_json (extract_json resp.data)) = .ok d
      ∧ ensure_required_fields d req = .ok d'
      ∧ tripPlanOfJson d' = .ok p := by
  unfold parse_attempt at h
  by_cases he : (extract_json resp.data).isEmpty = true
  · rw [if_pos he] at h
    simp at h
  · rw [if_neg he] at h
    replace h : (jsonLoads (fix_incomplete_json (extract_json resp.data)) >>=
        fun data => ensure_required_fields data req >>=
          fun data => tripPlanOfJson data) = Except.ok p := h
    cases h1 : jsonLoads (fix_incomplete_json (extract_json resp.data)) with
    | error e => rw [h1] at h; simp at h
    | ok d =>
      rw [h1] at h
      simp only [exceptBindOk] at h
      cases h2 : ensure_required_fields d req with
      | error e => rw [h2] at h; simp at h
      | ok d' =>
        rw [h2] at h
        simp only [exceptBindOk] at h
        exact ⟨d, d', rfl, h2, h⟩

/-- Structural validity per the meal-type enum of the spec. -/
def validMealTypes (p : TripPlan) : Prop :=
  ∀ d ∈ p.days, ∀ m ∈ d.meals,
    m.type = "breakfast" ∨ m.type = "lunch" ∨ m.type = "dinner"

theorem fallback_validMeals (req : TripRequest) :
    validMealTypes (create_fallback_plan req) := by
  intro d hd m hm
  simp only [create_fallback_plan, List.mem_map] at hd
  obtain ⟨i, -, rfl⟩ := hd
  simp only [List.mem_cons, List.not_mem_nil, or_false] at hm
  rcases hm with h | h | h <;> subst h
  · exact Or.inl rfl
  · exact Or.inr (Or.inl rfl)
  · exact Or.inr (Or.inr rfl)

theorem tripPlanOfJson_validMeals {j : Json} {p : TripPlan}
    (h : tripPlanOfJson j = .ok p) : validMealTypes p := by
  obtain ⟨fs, ds, -, -, hdays⟩ := tripPlanOfJson_inv h
  intro d hd m hm
  obtain ⟨x, -, hday⟩ := mapE_mem hdays d hd
  obtain ⟨ml, hml⟩ := dayPlanOfJson_meals hday
  obtain ⟨y, -, hmeal⟩ := mapE_mem hml m hm
  exact mealOfJson_type hmeal

/-- C1: `plan_trip` is a total function of the request and the workflow
outcome — a workflow exception goes straight to the fallback generator,
and every failure inside the recovery pipeline (empty extraction, parse
error, backfill `TypeError`, schema violation) is caught by
`_parse_response` — so the caller always receives a `TripPlan`, and one
whose meal types all lie in the schema enum, with no partial or degraded
variant in the return type. -/
theorem plan_trip_total_valid (req : TripRequest) :
    (∀ e, plan_trip req (.error e) = create_fallback_plan req)
    ∧ ∀ w, validMealTypes (plan_trip req w) := by
  refine ⟨fun e => rfl, fun w => ?_⟩
  cases w with
  | error e => exact fallback_validMeals req
  | ok resp =>
    show validMealTypes (parse_response resp req)
    unfold parse_response
    cases hp : parse_attempt resp req with
    | error e => exact fallback_validMeals req
    | ok p =>
      obtain ⟨d, d', -, -, h3⟩ := parse_attempt_inv hp
      exact tripPlanOfJson_validMeals h3

theorem tripPlan_days_length {fs : List (String × Json)} {ds : List Json}
    {p : TripPlan} (h : tripPlanOfJson (.obj fs) = .ok p)
    (hg : pyGet fs "days" = some (.arr ds)) : p.days.length = ds.length := by
  obtain ⟨fs', ds', heq, hg', hdays⟩ := tripPlanOfJson_inv h
  injection heq with heq
  subst heq
  rw [hg] at hg'
  injection hg' with hg'
  injection hg' with hg'
  subst hg'
  exact mapE_length hdays

/-- C2 counterexample: when the model output supplies more days than
`travel_days` (and its own first-day date), the recovered plan keeps them:
for a 1-day request whose workflow text contains two days dated in 2099,
`plan_trip` returns 2 days and a first-day date differing from
`request.start_date`. -/
theorem plan_trip_days_counterexample :
    (plan_trip ⟨"北京", 19845, 19846, 1, "公共交通", "酒店", []⟩
        (.ok "\x7b\"days\":[\x7b\"date\":\"2099-01-01\"\x7d,\x7b\"date\":\"2099-01-02\"\x7d]\x7d")).days.length
        = 2
    ∧ (1 : Nat) ≠ 2
    ∧ (plan_trip ⟨"北京", 19845, 19846, 1, "公共交通", "酒店", []⟩
        (.ok "\x7b\"days\":[\x7b\"date\":\"2099-01-01\"\x7d,\x7b\"date\":\"2099-01-02\"\x7d]\x7d")).days.head?.map
          DayPlan.date = some "2099-01-01"
    ∧ formatDate 19845 = "2024-05-02"
    ∧ ("2099-01-01" : String) ≠ "2024-05-02" := by
  refine ⟨by decide, by decide, by decide, by decide, by decide⟩

/-- C2 amended: the returned plan always has *at least* `travel_days` days
(the backfill only pads upward and never truncates, and extra model-supplied
days survive schema validation); on the fallback path the count is exactly
`travel_days` and the first day is dated `start_date`. -/
theorem plan_trip_days_amended (req : TripRequest) (w : Except String String) :
    req.travel_days ≤ (plan_trip req w).days.length
    ∧ (create_fallback_plan req).days.length = req.travel_days
    ∧ (0 < req.travel_days →
        (create_fallback_plan req).days.head?.map DayPlan.date
          = some (formatDate req.start_date)) := by
  have hlen : (create_fallback_plan req).days.length = req.travel_days := by
    simp [create_fallback_plan]
  refine ⟨?_, hlen, ?_⟩
  · cases w with
    | error e =>
      show req.travel_days ≤ (create_fallback_plan req).days.length
      rw [hlen]
    | ok resp =>
      show req.travel_days ≤ (parse_response resp req).days.length
      unfold parse_response
      cases hp : parse_attempt resp req with
      | error e => rw [hlen]
      | ok p =>
        obtain ⟨d, d', -, h2, h3⟩ := parse_attempt_inv hp
        have hcomp := ensure_complete h2
        cases d' with
        | obj fs =>
          obtain ⟨-, -, -, -, -, ds, hg, hlen2, -, -⟩ := hcomp
          rw [tripPlan_days_length h3 hg]
          exact hlen2
        | null => exact absurd hcomp (by simp [Complete])
        | bool b => exact absurd hcomp (by simp [Complete])
        | num q => exact absurd hcomp (by simp [Complete])
        | str s => exact absurd hcomp (by simp [Complete])
        | arr l => exact absurd hcomp (by simp [Complete])
  · intro hpos
    cases hn : req.travel_days with
    | zero => omega
    | succ k =>
      simp only [create_fallback_plan, hn, List.range_succ_eq_map, List.map_cons,
        List.head?_cons]
      rfl

theorem plan_trip_days_amended_witness :
    1 ≤ (plan_trip ⟨"北京", 19845, 19846, 1, "公共交通", "酒店", []⟩
        (.error "接口超时")).days.length
    ∧ (create_fallback_plan
        ⟨"北京", 19845, 19846, 1, "公共交通", "酒店", []⟩).days.length = 1
    ∧ (create_fallback_plan
        ⟨"北京", 19845, 19846, 1, "公共交通", "酒店", []⟩).days.head?.map DayPlan.date
        = some (formatDate 19845) := by
  have h := plan_trip_days_amended ⟨"北京", 19845, 19846, 1, "公共交通", "酒店", []⟩
    (.error "接口超时")
  exact ⟨h.1, h.2.1, h.2.2 (by decide)⟩

end TravelAgent
